import Mathlib

/-!
SDDL decoder (`gosddl.go`): shallow embedding and verified properties.

A Go `string` is modelled as the list of its characters (`Str`).  SDDL text is
ASCII, so one character is one byte: `len(s)` is `List.length`, `s[j]` is the
`j`-th element and `string(s[j])` is the one-element string.

Go run-time panics (index out of range, slice bounds out of range) and the
`log.Fatal` of the dispatcher are the values of `Fault`; every function that
can reach one of them returns in `Except Fault`.  The receiver `p *permissons`
that the methods mutate is passed explicitly and returned.
-/

set_option autoImplicit false

namespace Gosddl

/-- Go `string`, as its sequence of (ASCII) characters. -/
abbrev Str := List Char

/-- The ways in which the Go program stops without a result. -/
inductive Fault where
  | indexOutOfRange
  | sliceBounds
  | unresolvedGroup
  deriving DecidableEq, Repr

/-- Go `type entryACLInternal struct`. -/
structure entryACLInternal where
  AccountSid : Str
  AceType : Str
  AceFlags : List Str
  Rights : List Str
  ObjectGuid : Str
  InheritObjectGuid : Str
  deriving DecidableEq, Repr

/-- Go `type permissons struct`. -/
structure permissons where
  Owner : Str
  Primary : Str
  Dacl : List entryACLInternal
  DaclInher : List Str
  Sacl : List entryACLInternal
  SaclInger : List Str
  deriving DecidableEq, Repr

/-- The zero value of `permissons` (`var permisson permissons`). -/
def permissons.zero : permissons :=
  { Owner := [], Primary := [], Dacl := [], DaclInher := [], Sacl := [], SaclInger := [] }

/-- Go `map[string]string` literal, as an association list (the keys of each
literal of the source are pairwise distinct). -/
abbrev Table := List (Str × Str)

/-! ## Go primitives used by the decoder -/

/-- Go `xs[i]`: panics when `i` is out of range. -/
def elemAt {α : Type} (xs : List α) (i : Nat) : Except Fault α :=
  match xs[i]? with
  | some x => .ok x
  | none => .error .indexOutOfRange

/-- Go `s[lo:hi]`: panics unless `0 ≤ lo ≤ hi ≤ len(s)`. -/
def slice (s : Str) (lo hi : Int) : Except Fault Str :=
  if 0 ≤ lo ∧ lo ≤ hi ∧ hi ≤ (s.length : Int) then
    .ok ((s.drop lo.toNat).take (hi.toNat - lo.toNat))
  else .error .sliceBounds

/-- Scan of `strings.Index`: `k` is the index of the head of the remaining text. -/
def indexFrom (substr : Str) : Str → Nat → Int
  | [], k => if substr = [] then (k : Int) else -1
  | c :: cs, k => if substr.isPrefixOf (c :: cs) then (k : Int) else indexFrom substr cs (k + 1)

/-- Go `strings.Index(s, substr)`: index of the first occurrence, `-1` if none. -/
def Index (s substr : Str) : Int := indexFrom substr s 0

/-- Go `strings.Split(s, sep)` for a one-character separator: the pieces of `s`
between the occurrences of `sep`, one more than there are occurrences. -/
def Split : Str → Char → List Str
  | [], _ => [[]]
  | c :: cs, sep =>
    if c = sep then [] :: Split cs sep
    else match Split cs sep with
      | [] => [[c]]
      | w :: ws => (c :: w) :: ws

/-- Go `strings.TrimSuffix(s, suffix)`. -/
def TrimSuffix (s suffix : Str) : Str :=
  if suffix.isSuffixOf s then s.take (s.length - suffix.length) else s

/-! ## Lookup tables -/

def sddlRights : Table :=
  [ ("GA".toList, "GENERIC_ALL".toList),
    ("GR".toList, "GENERIC_READ".toList),
    ("GW".toList, "GENERIC_WRITE".toList),
    ("GX".toList, "GENERIC_EXECUTE".toList),
    ("RC".toList, "READ_CONTROL".toList),
    ("SD".toList, "DELETE".toList),
    ("WD".toList, "WRITE_DAC".toList),
    ("WO".toList, "WRITE_OWNER".toList),
    ("RP".toList, "ADS_RIGHT_DS_READ_PROP".toList),
    ("WP".toList, "ADS_RIGHT_DS_WRITE_PROP".toList),
    ("CC".toList, "ADS_RIGHT_DS_CREATE_CHILD".toList),
    ("DC".toList, "ADS_RIGHT_DS_DELETE_CHILD".toList),
    ("LC".toList, "ADS_RIGHT_ACTRL_DS_LIST".toList),
    ("SW".toList, "ADS_RIGHT_DS_SELF".toList),
    ("LO".toList, "ADS_RIGHT_DS_LIST_OBJECT".toList),
    ("DT".toList, "ADS_RIGHT_DS_DELETE_TREE".toList),
    ("CR".toList, "ADS_RIGHT_DS_CONTROL_ACCESS".toList),
    ("FA".toList, "FILE_ALL_ACCESS".toList),
    ("FR".toList, "FILE_GENERIC_READ".toList),
    ("FW".toList, "FILE_GENERIC_WRITE".toList),
    ("FX".toList, "FILE_GENERIC_EXECUTE".toList),
    ("KA".toList, "KEY_ALL_ACCESS".toList),
    ("KR".toList, "KEY_READ".toList),
    ("KW".toList, "KEY_WRITE".toList),
    ("KX".toList, "KEY_EXECUTE".toList),
    ("NR".toList, "SYSTEM_MANDATORY_LABEL_NO_READ_UP".toList),
    ("NW".toList, "SYSTEM_MANDATORY_LABEL_NO_WRITE_UP".toList),
    ("NX".toList, "SYSTEM_MANDATORY_LABEL_NO_EXECUTE".toList) ]

def sddlInheritanceFlags : Table :=
  [ ("P".toList, "DDL_PROTECTED".toList),
    ("AI".toList, "SDDL_AUTO_INHERITED".toList),
    ("AR".toList, "SDDL_AUTO_INHERIT_REQ".toList) ]

def sddlAceType : Table :=
  [ ("D".toList, "ACCESS DENIED".toList),
    ("OA".toList, "OBJECT ACCESS ALLOWED".toList),
    ("OD".toList, "OBJECT ACCESS DENIED".toList),
    ("AU".toList, "SYSTEM AUDIT".toList),
    ("OU".toList, "OBJECT SYSTEM AUDIT".toList),
    ("OL".toList, "OBJECT SYSTEM ALARM".toList),
    ("A".toList, "ACCESS ALLOWED".toList) ]

def sddlAceFlags : Table :=
  [ ("CI".toList, "CONTAINER INHERIT".toList),
    ("OI".toList, "OBJECT INHERIT".toList),
    ("NP".toList, "NO PROPAGATE".toList),
    ("IO".toList, "INHERITANCE ONLY".toList),
    ("ID".toList, "ACE IS INHERITED".toList),
    ("SA".toList, "SUCCESSFUL ACCESS AUDIT".toList),
    ("FA".toList, "FAILED ACCESS AUDIT".toList) ]

def sddlSidsRep : Table :=
  [ ("O".toList, "Owner".toList),
    ("AO".toList, "Account operators".toList),
    ("PA".toList, "Group Policy administrators".toList),
    ("RU".toList, "Alias to allow previous Windows 2000".toList),
    ("IU".toList, "Interactively logged-on user".toList),
    ("AN".toList, "Anonymous logon".toList),
    ("LA".toList, "Local administrator".toList),
    ("AU".toList, "Authenticated users".toList),
    ("LG".toList, "Local guest".toList),
    ("BA".toList, "Built-in administrators".toList),
    ("LS".toList, "Local service account".toList),
    ("BG".toList, "Built-in guests".toList),
    ("SY".toList, "Local system".toList),
    ("BO".toList, "Backup operators".toList),
    ("NU".toList, "Network logon user".toList),
    ("BU".toList, "Built-in users".toList),
    ("NO".toList, "Network configuration operators".toList),
    ("CA".toList, "Certificate server administrators".toList),
    ("NS".toList, "Network service account".toList),
    ("CG".toList, "Creator group".toList),
    ("PO".toList, "Printer operators".toList),
    ("CO".toList, "Creator owner".toList),
    ("PS".toList, "Personal self".toList),
    ("DA".toList, "Domain administrators".toList),
    ("PU".toList, "Power users".toList),
    ("DC".toList, "Domain computers".toList),
    ("RS".toList, "RAS servers group".toList),
    ("DD".toList, "Domain controllers".toList),
    ("RD".toList, "Terminal server users".toList),
    ("DG".toList, "Domain guests".toList),
    ("RE".toList, "Replicator".toList),
    ("DU".toList, "Domain users".toList),
    ("RC".toList, "Restricted code".toList),
    ("EA".toList, "Enterprise administrators".toList),
    ("SA".toList, "Schema administrators".toList),
    ("ED".toList, "Enterprise domain controllers".toList),
    ("SO".toList, "Server operators".toList),
    ("WD".toList, "Everyone".toList),
    ("SU".toList, "Service logon user".toList) ]

def sddlWellKnownSidsRep : Table :=
  [ ("S-1-0".toList, "Null Authority".toList),
    ("S-1-0-0".toList, "Nobody".toList),
    ("S-1-1".toList, "World Authority".toList),
    ("S-1-1-0".toList, "Everyone".toList),
    ("S-1-2".toList, "Local Authority".toList),
    ("S-1-2-0".toList, "Local ".toList),
    ("S-1-2-1".toList, "Console Logon ".toList),
    ("S-1-3".toList, "Creator Authority".toList),
    ("S-1-3-0".toList, "Creator Owner".toList),
    ("S-1-3-1".toList, "Creator Group".toList),
    ("S-1-3-2".toList, "Creator Owner Server".toList),
    ("S-1-3-3".toList, "Creator Group Server".toList),
    ("S-1-3-4".toList, "Owner Rights ".toList),
    ("S-1-4".toList, "Non-unique Authority".toList),
    ("S-1-5".toList, "NT Authority".toList),
    ("S-1-5-1".toList, "Dialup".toList),
    ("S-1-5-2".toList, "Network".toList),
    ("S-1-5-3".toList, "Batch".toList),
    ("S-1-5-4".toList, "Interactive".toList),
    ("S-1-5-6".toList, "Service".toList),
    ("S-1-5-7".toList, "Anonymous".toList),
    ("S-1-5-8".toList, "Proxy".toList),
    ("S-1-5-9".toList, "Enterprise Domain Controllers".toList),
    ("S-1-5-10".toList, "Principal Self".toList),
    ("S-1-5-11".toList, "Authenticated Users".toList),
    ("S-1-5-12".toList, "Restricted Code".toList),
    ("S-1-5-13".toList, "Terminal Server Users".toList),
    ("S-1-5-14".toList, "Remote Interactive Logon ".toList),
    ("S-1-5-15".toList, "This Organization ".toList),
    ("S-1-5-17".toList, "This Organization ".toList),
    ("S-1-5-18".toList, "Local System".toList),
    ("S-1-5-19".toList, "NT Authority".toList),
    ("S-1-5-20".toList, "NT Authority".toList),
    ("S-1-5-32-544".toList, "Administrators".toList),
    ("S-1-5-32-545".toList, "Users".toList),
    ("S-1-5-32-546".toList, "Guests".toList),
    ("S-1-5-32-547".toList, "Power Users".toList),
    ("S-1-5-32-548".toList, "Account Operators".toList),
    ("S-1-5-32-549".toList, "Server Operators".toList),
    ("S-1-5-32-550".toList, "Print Operators".toList),
    ("S-1-5-32-551".toList, "Backup Operators".toList),
    ("S-1-5-32-552".toList, "Replicators".toList),
    ("S-1-5-64-10".toList, "NTLM Authentication ".toList),
    ("S-1-5-64-14".toList, "SChannel Authentication ".toList),
    ("S-1-5-64-21".toList, "Digest Authentication ".toList),
    ("S-1-5-80".toList, "NT Service ".toList),
    ("S-1-5-80-0".toList, "All Services ".toList),
    ("S-1-5-83-0".toList, "NT VIRTUAL MACHINE\\Virtual Machines".toList),
    ("S-1-16-0".toList, "Untrusted Mandatory Level ".toList),
    ("S-1-16-4096".toList, "Low Mandatory Level ".toList),
    ("S-1-16-8192".toList, "Medium Mandatory Level ".toList),
    ("S-1-16-8448".toList, "Medium Plus Mandatory Level ".toList),
    ("S-1-16-12288".toList, "High Mandatory Level ".toList),
    ("S-1-16-16384".toList, "System Mandatory Level ".toList),
    ("S-1-16-20480".toList, "Protected Process Mandatory Level ".toList),
    ("S-1-16-28672".toList, "Secure Process Mandatory Level ".toList),
    ("S-1-5-32-554".toList, "BUILTIN\\Pre-Windows 2000 Compatible Access".toList),
    ("S-1-5-32-555".toList, "BUILTIN\\Remote Desktop Users".toList),
    ("S-1-5-32-556".toList, "BUILTIN\\Network Configuration Operators".toList),
    ("S-1-5-32-557".toList, "BUILTIN\\Incoming Forest Trust Builders".toList),
    ("S-1-5-32-558".toList, "BUILTIN\\Performance Monitor Users".toList),
    ("S-1-5-32-559".toList, "BUILTIN\\Performance Log Users".toList),
    ("S-1-5-32-560".toList, "BUILTIN\\Windows Authorization Access Group".toList),
    ("S-1-5-32-561".toList, "BUILTIN\\Terminal Server License Servers".toList),
    ("S-1-5-32-562".toList, "BUILTIN\\Distributed COM Users".toList),
    ("S-1-5-32-569".toList, "BUILTIN\\Cryptographic Operators".toList),
    ("S-1-5-32-573".toList, "BUILTIN\\Event Log Readers ".toList),
    ("S-1-5-32-574".toList, "BUILTIN\\Certificate Service DCOM Access ".toList),
    ("S-1-5-32-575".toList, "BUILTIN\\RDS Remote Access Servers".toList),
    ("S-1-5-32-576".toList, "BUILTIN\\RDS Endpoint Servers".toList),
    ("S-1-5-32-577".toList, "BUILTIN\\RDS Management Servers".toList),
    ("S-1-5-32-578".toList, "BUILTIN\\Hyper-V Administrators".toList),
    ("S-1-5-32-579".toList, "BUILTIN\\Access Control Assistance Operators".toList),
    ("S-1-5-32-580".toList, "BUILTIN\\Remote Management Users".toList),
    ("S-1-5-80-956008885-3418522649-1831038044-1853292631-2271478464".toList,
      "Trusted Installer".toList) ]

/-! ## The decoder -/

/-- Go `if x, ok := maps[v]; ok { x } else { v }`. -/
def resolve (maps : Table) (v : Str) : Str :=
  match maps.lookup v with
  | some x => x
  | none => v

/-- The loop `for j := 0; j < len(str)-1; j = j + 2` collecting
`string(str[j]) + string(str[j+1])`: the recursion runs on `str[j:]`. -/
def chunk2 : Str → List Str
  | a :: b :: rest => [a, b] :: chunk2 rest
  | _ => []

/-- Go `replacer`: chunk a string longer than 2 into 2-letter pieces (a
string of length at most 2 is its own single piece), then resolve each piece. -/
def replacer (maps : Table) (str : Str) : List Str :=
  let temp : List Str := if str.length > 2 then chunk2 str else [str]
  temp.map (resolve maps)

/-- Go `sidReplace`; the statement after the `if/else` that returns in both
branches is dead code and has no counterpart here. -/
def sidReplace (str : Str) : Except Fault Str :=
  if str.length > 2 then
    match sddlWellKnownSidsRep.lookup str with
    | some x => .ok x
    | none => .ok str
  else elemAt (replacer sddlSidsRep str) 0

/-- Go `splitBodyACL`; the fields of the struct literal are evaluated in
source order, every index expression being able to panic. -/
def splitBodyACL (str : Str) : Except Fault entryACLInternal := do
  let temp := Split str ';'
  let t0 ← elemAt temp 0
  let aceType ← elemAt (replacer sddlAceType t0) 0
  let t1 ← elemAt temp 1
  let t2 ← elemAt temp 2
  let t3 ← elemAt temp 3
  let t4 ← elemAt temp 4
  let t5 ← elemAt temp 5
  let accountSid ← sidReplace t5
  pure { AceType := aceType,
         AceFlags := replacer sddlAceFlags t1,
         Rights := replacer sddlRights t2,
         ObjectGuid := t3,
         InheritObjectGuid := t4,
         AccountSid := accountSid }

/-- Body of the `range` loop of `splitBody`, `arr` being the entries
appended so far. -/
def splitBodyLoop : List Str → List entryACLInternal → Except Fault (List entryACLInternal)
  | [], arr => .ok arr
  | y :: ys, arr =>
    if y ≠ [] then do
      let ace := TrimSuffix y [')']
      let e ← splitBodyACL ace
      splitBodyLoop ys (arr ++ [e])
    else splitBodyLoop ys arr

/-- Go `splitBody`. -/
def splitBody (body : Str) : Except Fault (List entryACLInternal) :=
  splitBodyLoop (Split body '(') []

/-- The inheritance-flag loop of `parseBody` over the 2-letter pieces of the
prefix, `arr` being the flags appended so far. -/
def inheritLoop : List Str → List Str → Except Fault (List Str)
  | [], arr => .ok arr
  | c :: cs, arr => do
    let f ← elemAt (replacer sddlInheritanceFlags c) 0
    inheritLoop cs (arr ++ [f])

/-- Go `(p *permissons) parseBody` (it does not read or write `p`). -/
def parseBody (body : Str) : Except Fault (List Str × List entryACLInternal) :=
  if Index body ['('] ≠ 0 then do
    let inheritFlag ← slice body 0 (Index body ['('])
    let ace ← slice body (Index body ['(']) body.length
    let inheritFlagArr ←
      if inheritFlag.length > 2 then inheritLoop (chunk2 inheritFlag) [] else pure []
    let entryACLInternalArr ← splitBody ace
    pure (inheritFlagArr, entryACLInternalArr)
  else do
    let entryACLInternalArr ← splitBody body
    pure ([], entryACLInternalArr)

/-- Go `(p *permissons) parseSDDL`: the loop over the section slices. -/
def parseSDDL (p : permissons) : List Str → Except Fault permissons
  | [] => .ok p
  | y :: ys => do
    let sddlSplit := Split y ':'
    let letter ← elemAt sddlSplit 0
    let body ← elemAt sddlSplit 1
    let p' ←
      if letter = ['O'] then do
        let o ← sidReplace body
        pure { p with Owner := o }
      else if letter = ['G'] then do
        let g ← sidReplace body
        pure { p with Primary := g }
      else if letter = ['D'] then do
        let r ← parseBody body
        pure { p with DaclInher := r.1, Dacl := r.2 }
      else if letter = ['S'] then do
        let r ← parseBody body
        pure { p with SaclInger := r.1, Sacl := r.2 }
      else .error .unresolvedGroup
    parseSDDL p' ys

/-- The loop `for i := 0; i < len(indecs)-1; i++` of `sliceSDDL`, on
`indecs[i:]`. -/
def sliceLoop (str : Str) : List Int → Except Fault (List Str)
  | a :: b :: rest => do
    let sl ← slice str a b
    let sddlArr ← sliceLoop str (b :: rest)
    pure (sl :: sddlArr)
  | _ => .ok []

/-- Go `(p *permissons) sliceSDDL`. -/
def sliceSDDL (p : permissons) (indecs : List Int) (str : Str) : Except Fault permissons := do
  let sddlArr ← sliceLoop str indecs
  parseSDDL p sddlArr

/-- The marker list of `findIndex`. -/
def groups : List Str := ["O:".toList, "G:".toList, "D:".toList, "S:".toList]

/-- The index list `findIndex` builds: the first occurrence of every marker
that occurs, in marker order, then `len(str)`. -/
def findIndexResult (str : Str) : List Int :=
  groups.foldl (fun result i => if Index str i ≠ -1 then result ++ [Index str i] else result) []
    ++ [(str.length : Int)]

/-- Go `(p *permissons) findIndex`. -/
def findIndex (p : permissons) (str : Str) : Except Fault permissons :=
  sliceSDDL p (findIndexResult str) str

/-- The decode entry point: `findIndex` on a zero-valued `permissons`, as
`Decode` and `main` call it. -/
def decode (sddl : Str) : Except Fault permissons :=
  findIndex permissons.zero sddl

/-! ## Reference definitions taken from the specification -/

/-- SID resolver as the specification words it (section 4.5): a token longer
than 2 characters is looked up by exact match in `WellKnownSid`, a token of at
most 2 characters in `SidAlias`; a token that is not a key is returned
unchanged. -/
def resolveSid_spec (token : Str) : Str :=
  if token.length > 2 then
    match sddlWellKnownSidsRep.lookup token with
    | some name => name
    | none => token
  else
    match sddlSidsRep.lookup token with
    | some name => name
    | none => token

/-- The `i`-th consecutive 2-character chunk of a field. -/
def chunkAt (s : Str) (i : Nat) : Str := (s.drop (2 * i)).take 2

/-- The text of one top-level section: nothing when the section is absent,
`letter:body` when it is present with the given body. -/
def piece (letter : Char) : Option Str → Str
  | none => []
  | some body => letter :: ':' :: body

/-- The SDDL text made of the present sections, in the order O, G, D, S. -/
def sddlOf (o g d s : Option Str) : Str :=
  piece 'O' o ++ (piece 'G' g ++ (piece 'D' d ++ piece 'S' s))

/-- A present section body holds no `:`. -/
def colonFree : Option Str → Prop
  | none => True
  | some body => ':' ∉ body

/-- What the O or G section contributes: the empty default when the section
is absent, the resolved SID of its body when it is present. -/
def sidOf : Option Str → Except Fault Str
  | none => .ok []
  | some body => sidReplace body

/-- What the D or S section contributes: the empty defaults when the section
is absent, the parsed ACL body when it is present. -/
def aclOf : Option Str → Except Fault (List Str × List entryACLInternal)
  | none => .ok ([], [])
  | some body => parseBody body

/-- Section dispatch as the specification words it (section 4.2), on the
bodies of the present sections: `O` and `G` go to the SID resolver, `D` and `S`
to the ACL body parser; the fields of an absent section keep the empty
default. -/
def decodeSections_spec (o g d s : Option Str) : Except Fault permissons := do
  let owner ← sidOf o
  let primary ← sidOf g
  let dacl ← aclOf d
  let sacl ← aclOf s
  pure { Owner := owner, Primary := primary, Dacl := dacl.2, DaclInher := dacl.1,
         Sacl := sacl.2, SaclInger := sacl.1 }

/-- The list holding the text of a section when it is present. -/
def sectionSlices (letter : Char) : Option Str → List Str
  | none => []
  | some body => [letter :: ':' :: body]

/-- The ACL body text `(a1)(a2)...(an)` of a list of ACE bodies. -/
def aclText : List Str → Str
  | [] => []
  | a :: rest => '(' :: (a ++ ')' :: aclText rest)

/-- The indices recorded by the loop of `findIndex`, before `len(str)` is
appended. -/
def markerIndices (str : Str) : List Int :=
  groups.foldl (fun result i => if Index str i ≠ -1 then result ++ [Index str i] else result) []

/-- The markers that occur in the text, in the order `findIndex` tries them. -/
def presentMarkers (str : Str) : List Str :=
  groups.filter (fun g => decide (Index str g ≠ -1))

/-- The text of `str` from index `a` up to index `b`. -/
def cut (str : Str) (a b : Int) : Str :=
  (str.drop a.toNat).take (b.toNat - a.toNat)

/-- The texts between consecutive boundaries. -/
def cuts (str : Str) : List Int → List Str
  | a :: b :: rest => cut str a b :: cuts str (b :: rest)
  | _ => []

/-- One turn of the loop of `parseSDDL`, on the slice `y`. -/
def dispatch (p : permissons) (y : Str) : Except Fault permissons := do
  let sddlSplit := Split y ':'
  let letter ← elemAt sddlSplit 0
  let body ← elemAt sddlSplit 1
  if letter = ['O'] then do
    let o ← sidReplace body
    pure { p with Owner := o }
  else if letter = ['G'] then do
    let g ← sidReplace body
    pure { p with Primary := g }
  else if letter = ['D'] then do
    let r ← parseBody body
    pure { p with DaclInher := r.1, Dacl := r.2 }
  else if letter = ['S'] then do
    let r ← parseBody body
    pure { p with SaclInger := r.1, Sacl := r.2 }
  else .error .unresolvedGroup

/-- The inheritance flags `parseBody` makes of the text before the first `(`:
none for a text of at most 2 characters, else the lookups of its consecutive
2-character pieces. -/
def inheritFlagsOf (pre : Str) : List Str :=
  if pre.length > 2 then (chunk2 pre).map (resolve sddlInheritanceFlags) else []

/-- The boundaries of consecutive pieces laid out from offset `k`. -/
def bounds : Nat → List Str → List Int
  | k, [] => [(k : Int)]
  | k, p :: ps => (k : Int) :: bounds (k + p.length) ps

/-! ## Basic facts about the primitives -/

theorem elemAt_cons_zero {α : Type} (x : α) (xs : List α) : elemAt (x :: xs) 0 = .ok x := by
  simp [elemAt]

theorem elemAt_cons_succ {α : Type} (x : α) (xs : List α) (i : Nat) :
    elemAt (x :: xs) (i + 1) = elemAt xs i := by
  simp [elemAt]

theorem elemAt_of_le {α : Type} (xs : List α) (i : Nat) (h : xs.length ≤ i) :
    elemAt xs i = .error .indexOutOfRange := by
  unfold elemAt
  rw [List.getElem?_eq_none h]

theorem resolve_of_none (maps : Table) (v : Str) (h : maps.lookup v = none) :
    resolve maps v = v := by
  unfold resolve
  rw [h]

theorem chunk2_length : ∀ s : Str, (chunk2 s).length = s.length / 2
  | [] => by simp [chunk2]
  | [_] => by simp [chunk2]
  | a :: b :: rest => by
    have ih := chunk2_length rest
    simp only [chunk2, List.length_cons, ih]
    omega

theorem chunk2_getElem? : ∀ (s : Str) (i : Nat), i < s.length / 2 →
    (chunk2 s)[i]? = some (chunkAt s i)
  | [], i, h => by simp at h
  | [_], i, h => by
    simp only [List.length_singleton] at h
    omega
  | a :: b :: rest, 0, _ => by simp [chunk2, chunkAt]
  | a :: b :: rest, i + 1, h => by
    have h' : i < rest.length / 2 := by
      simp only [List.length_cons] at h
      omega
    have ih := chunk2_getElem? rest i h'
    have e : 2 * (i + 1) = (2 * i + 1) + 1 := by ring
    simp only [chunk2, List.getElem?_cons_succ, ih, chunkAt, e, List.drop_succ_cons]

theorem replacer_short (maps : Table) (s : Str) (h : s.length ≤ 2) :
    replacer maps s = [resolve maps s] := by
  unfold replacer
  have : ¬ s.length > 2 := by omega
  simp [this]

theorem replacer_long (maps : Table) (s : Str) (h : 2 < s.length) :
    replacer maps s = (chunk2 s).map (resolve maps) := by
  unfold replacer
  simp [h]

/-- The first element of `replacer` always exists: `[0]` never panics. -/
theorem elemAt_replacer_zero (maps : Table) (s : Str) :
    elemAt (replacer maps s) 0
      = .ok (resolve maps (if s.length > 2 then s.take 2 else s)) := by
  by_cases h : s.length > 2
  · rw [replacer_long maps s h]
    match s, h with
    | a :: b :: c :: rest, _ => simp [chunk2, elemAt]
  · rw [replacer_short maps s (by omega)]
    simp [h, elemAt]

theorem sidReplace_ok (s : Str) : sidReplace s = .ok (resolveSid_spec s) := by
  unfold sidReplace resolveSid_spec
  by_cases h : s.length > 2
  · simp only [h, if_true]
    cases sddlWellKnownSidsRep.lookup s <;> rfl
  · simp only [h, if_false]
    rw [elemAt_replacer_zero]
    simp only [h, if_false, resolve]

/-- What `splitBodyACL` returns on a body with at least six fields. -/
theorem splitBodyACL_of_fields (a f0 f1 f2 f3 f4 f5 : Str) (rest : List Str)
    (h : Split a ';' = f0 :: f1 :: f2 :: f3 :: f4 :: f5 :: rest) :
    splitBodyACL a = .ok
      { AceType := resolve sddlAceType (if f0.length > 2 then f0.take 2 else f0),
        AceFlags := replacer sddlAceFlags f1,
        Rights := replacer sddlRights f2,
        ObjectGuid := f3,
        InheritObjectGuid := f4,
        AccountSid := resolveSid_spec f5 } := by
  unfold splitBodyACL
  simp only [h, elemAt_cons_zero, elemAt_cons_succ, elemAt_replacer_zero, sidReplace_ok]
  rfl

/-- A list of length at least six, taken apart. -/
theorem six_fields {α : Type} (l : List α) (h : 6 ≤ l.length) :
    ∃ f0 f1 f2 f3 f4 f5 rest, l = f0 :: f1 :: f2 :: f3 :: f4 :: f5 :: rest := by
  match l, h with
  | f0 :: f1 :: f2 :: f3 :: f4 :: f5 :: rest, _ => exact ⟨f0, f1, f2, f3, f4, f5, rest, rfl⟩

theorem Split_ne_nil : ∀ (s : Str) (sep : Char), Split s sep ≠ []
  | [], _ => by simp [Split]
  | c :: cs, sep => by
    unfold Split
    split
    · simp
    · split <;> simp

/-- With fewer than six fields some index expression of `splitBodyACL` panics. -/
theorem splitBodyACL_of_short (a : Str) (h : (Split a ';').length < 6) :
    splitBodyACL a = .error .indexOutOfRange := by
  unfold splitBodyACL
  have hne := Split_ne_nil a ';'
  match hs : Split a ';', h, hne with
  | [f0], _, _ => simp [elemAt_cons_zero, elemAt_replacer_zero]; rfl
  | [f0, f1], _, _ => simp [elemAt_cons_zero, elemAt_replacer_zero]; rfl
  | [f0, f1, f2], _, _ => simp [elemAt_cons_zero, elemAt_replacer_zero]; rfl
  | [f0, f1, f2, f3], _, _ => simp [elemAt_cons_zero, elemAt_replacer_zero]; rfl
  | [f0, f1, f2, f3, f4], _, _ => simp [elemAt_cons_zero, elemAt_replacer_zero]; rfl

/-! ## Splitting, searching and slicing -/

theorem Split_of_not_mem : ∀ (x : Str) (sep : Char), sep ∉ x → Split x sep = [x]
  | [], _, _ => by simp [Split]
  | c :: cs, sep, h => by
    have hc : c ≠ sep := fun e => h (by simp [e])
    have hcs : sep ∉ cs := fun m => h (List.mem_cons_of_mem _ m)
    simp [Split, hc, Split_of_not_mem cs sep hcs]

theorem Split_append_sep : ∀ (x y : Str) (sep : Char), sep ∉ x →
    Split (x ++ sep :: y) sep = x :: Split y sep
  | [], y, sep, _ => by simp [Split]
  | c :: cs, y, sep, h => by
    have hc : c ≠ sep := fun e => h (by simp [e])
    have hcs : sep ∉ cs := fun m => h (List.mem_cons_of_mem _ m)
    simp [Split, hc, Split_append_sep cs y sep hcs]

theorem Split_piece (letter : Char) (body : Str) (hl : letter ≠ ':') (hb : ':' ∉ body) :
    Split (letter :: ':' :: body) ':' = [[letter], body] := by
  have := Split_append_sep [letter] body ':' (by simpa using Ne.symm hl)
  simpa [Split_of_not_mem body ':' hb] using this

theorem TrimSuffix_append_paren (a : Str) : TrimSuffix (a ++ [')']) [')'] = a := by
  unfold TrimSuffix
  have : List.isSuffixOf [')'] (a ++ [')']) = true := by
    rw [List.isSuffixOf_iff_suffix]
    exact List.suffix_append a [')']
  simp [this]

theorem Index_cons_self (c : Char) (s : Str) : Index (c :: s) [c] = 0 := by
  simp [Index, indexFrom, List.isPrefixOf]

theorem slice_middle (pre p post : Str) :
    slice (pre ++ (p ++ post)) (pre.length : Int) ((pre.length + p.length : Nat) : Int)
      = .ok p := by
  unfold slice
  have hc : (0 : Int) ≤ (pre.length : Int) ∧ (pre.length : Int) ≤ ((pre.length + p.length : Nat) : Int)
      ∧ ((pre.length + p.length : Nat) : Int) ≤ ((pre ++ (p ++ post)).length : Int) := by
    simp only [List.length_append]
    omega
  rw [if_pos hc, Int.toNat_ofNat, Int.toNat_ofNat, Nat.add_sub_cancel_left,
    List.drop_left, List.take_left]

theorem sliceLoop_bounds : ∀ (ps : List Str) (pre : Str),
    sliceLoop (pre ++ ps.flatten) (bounds pre.length ps) = .ok ps
  | [], pre => by simp [bounds, sliceLoop]
  | [p], pre => by
    have h := slice_middle pre p []
    simp only [List.append_nil] at h
    simp only [bounds, sliceLoop, h, bind, Except.bind, pure, Except.pure, List.flatten_cons,
      List.flatten_nil, List.append_nil]
  | p :: q :: ps, pre => by
    have ih := sliceLoop_bounds (q :: ps) (pre ++ p)
    have h := slice_middle pre p (q :: ps).flatten
    simp only [List.length_append, List.append_assoc] at ih
    simp only [bounds] at ih ⊢
    simp only [List.flatten_cons] at ih h ⊢
    simp only [sliceLoop, h, ih, bind, Except.bind, pure, Except.pure]

/-- No marker `X:` starts at a character that is followed by something
other than `:`. -/
theorem isPrefixOf_marker_false (X c : Char) (t : Str) (ht : t.head? ≠ some ':') :
    List.isPrefixOf [X, ':'] (c :: t) = false := by
  cases t with
  | nil => simp [List.isPrefixOf]
  | cons b t =>
    have hb : b ≠ ':' := fun e => ht (by simp [e])
    simp [List.isPrefixOf, Ne.symm hb]

theorem head?_append_ne (body rest : Str) (hb : ':' ∉ body) (hr : rest.head? ≠ some ':') :
    (body ++ rest).head? ≠ some ':' := by
  cases body with
  | nil => simpa using hr
  | cons b t =>
    have : b ≠ ':' := fun e => hb (by simp [e])
    simpa using this

/-- The search for a marker runs through a `:`-free stretch of text without
a match. -/
theorem indexFrom_skip (X : Char) : ∀ (body rest : Str) (k : Nat), ':' ∉ body →
    rest.head? ≠ some ':' →
    indexFrom [X, ':'] (body ++ rest) k = indexFrom [X, ':'] rest (k + body.length)
  | [], rest, k, _, _ => by simp
  | c :: cs, rest, k, hb, hr => by
    have hcs : ':' ∉ cs := fun m => hb (List.mem_cons_of_mem _ m)
    have hp := isPrefixOf_marker_false X c (cs ++ rest) (head?_append_ne cs rest hcs hr)
    have ih := indexFrom_skip X cs rest (k + 1) hcs hr
    have e : k + 1 + cs.length = k + (cs.length + 1) := by omega
    simp only [List.cons_append]
    rw [indexFrom, hp]
    simp only [Bool.false_eq_true, if_false, ih, List.length_cons, e]

theorem indexFrom_piece (X L : Char) (hX : X ≠ ':') (b : Option Str) (rest : Str) (k : Nat)
    (hb : colonFree b) (hr : rest.head? ≠ some ':') :
    indexFrom [X, ':'] (piece L b ++ rest) k
      = if b.isSome ∧ L = X then (k : Int)
        else indexFrom [X, ':'] rest (k + (piece L b).length) := by
  cases b with
  | none => simp [piece]
  | some body =>
    have hb' : ':' ∉ body := hb
    have hskip := indexFrom_skip X body rest (k + 2) hb' hr
    by_cases hL : L = X
    · subst hL
      simp [piece, indexFrom, List.isPrefixOf]
    · have hL' : ¬ X = L := fun e => hL e.symm
      have e1 : k + 1 + 1 = k + 2 := by omega
      have e2 : k + 2 + body.length = k + (body.length + 1 + 1) := by omega
      simp only [piece, List.cons_append, indexFrom, List.isPrefixOf, e1, hskip]
      simp only [hL, hL', hX, false_and, and_false, Bool.false_and, Bool.and_false,
        decide_False, Bool.false_eq_true, if_false, List.length_cons,
        beq_iff_eq, Bool.and_eq_true, Option.isSome_some, true_and]
      rw [← e2]
      exact hskip

theorem head?_piece_append (L : Char) (hL : L ≠ ':') (b : Option Str) (rest : Str)
    (hr : rest.head? ≠ some ':') : (piece L b ++ rest).head? ≠ some ':' := by
  cases b with
  | none => simpa [piece] using hr
  | some body => simpa [piece] using hL

/-! ## Decoding a text made of well-separated sections -/

theorem Index_sddlOf (X : Char) (hX : X ≠ ':') (o g d s : Option Str)
    (ho : colonFree o) (hg : colonFree g) (hd : colonFree d) (hs : colonFree s) :
    Index (sddlOf o g d s) [X, ':'] =
      if o.isSome ∧ 'O' = X then (0 : Int)
      else if g.isSome ∧ 'G' = X then ((piece 'O' o).length : Int)
      else if d.isSome ∧ 'D' = X then (((piece 'O' o).length + (piece 'G' g).length : Nat) : Int)
      else if s.isSome ∧ 'S' = X then
        (((piece 'O' o).length + (piece 'G' g).length + (piece 'D' d).length : Nat) : Int)
      else -1 := by
  have hnil : ([] : Str).head? ≠ some ':' := by simp
  have h4 : (piece 'S' s ++ []).head? ≠ some ':' :=
    head?_piece_append 'S' (by decide) s [] hnil
  have h3 : (piece 'D' d ++ (piece 'S' s ++ [])).head? ≠ some ':' :=
    head?_piece_append 'D' (by decide) d _ h4
  have h2 : (piece 'G' g ++ (piece 'D' d ++ (piece 'S' s ++ []))).head? ≠ some ':' :=
    head?_piece_append 'G' (by decide) g _ h3
  have e : sddlOf o g d s
      = piece 'O' o ++ (piece 'G' g ++ (piece 'D' d ++ (piece 'S' s ++ []))) := by
    simp [sddlOf]
  rw [Index, e, indexFrom_piece X 'O' hX o _ 0 ho h2,
    indexFrom_piece X 'G' hX g _ _ hg h3, indexFrom_piece X 'D' hX d _ _ hd h4,
    indexFrom_piece X 'S' hX s _ _ hs hnil]
  simp [indexFrom]

theorem findIndexResult_sddlOf (o g d s : Option Str)
    (ho : colonFree o) (hg : colonFree g) (hd : colonFree d) (hs : colonFree s) :
    findIndexResult (sddlOf o g d s)
      = bounds 0 (sectionSlices 'O' o ++ (sectionSlices 'G' g ++
          (sectionSlices 'D' d ++ sectionSlices 'S' s))) := by
  have hO := Index_sddlOf 'O' (by decide) o g d s ho hg hd hs
  have hG := Index_sddlOf 'G' (by decide) o g d s ho hg hd hs
  have hD := Index_sddlOf 'D' (by decide) o g d s ho hg hd hs
  have hS := Index_sddlOf 'S' (by decide) o g d s ho hg hd hs
  have eO : "O:".toList = ['O', ':'] := rfl
  have eG : "G:".toList = ['G', ':'] := rfl
  have eD : "D:".toList = ['D', ':'] := rfl
  have eS : "S:".toList = ['S', ':'] := rfl
  simp only [findIndexResult, groups, List.foldl_cons, List.foldl_nil, eO, eG, eD, eS,
    hO, hG, hD, hS]
  cases o <;> cases g <;> cases d <;> cases s <;>
    simp [sddlOf, piece, sectionSlices, bounds]
  all_goals split_ifs
  all_goals first
    | omega
    | (simp only [List.cons_append, List.nil_append, List.cons.injEq, and_true, true_and]
       omega)

theorem sddlOf_eq_flatten (o g d s : Option Str) :
    sddlOf o g d s = [] ++ (sectionSlices 'O' o ++ (sectionSlices 'G' g ++
          (sectionSlices 'D' d ++ sectionSlices 'S' s))).flatten := by
  cases o <;> cases g <;> cases d <;> cases s <;> simp [sddlOf, piece, sectionSlices]

theorem parseSDDL_nil (p : permissons) : parseSDDL p [] = .ok p := by
  rw [parseSDDL]

theorem parseSDDL_owner (p : permissons) (body : Str) (ys : List Str)
    (hb : colonFree (some body)) :
    parseSDDL p (('O' :: ':' :: body) :: ys)
      = parseSDDL { p with Owner := resolveSid_spec body } ys := by
  rw [parseSDDL, Split_piece 'O' body (by decide) hb]
  simp only [elemAt_cons_zero, elemAt_cons_succ, sidReplace_ok]
  rfl

theorem parseSDDL_primary (p : permissons) (body : Str) (ys : List Str)
    (hb : colonFree (some body)) :
    parseSDDL p (('G' :: ':' :: body) :: ys)
      = parseSDDL { p with Primary := resolveSid_spec body } ys := by
  rw [parseSDDL, Split_piece 'G' body (by decide) hb]
  simp only [elemAt_cons_zero, elemAt_cons_succ, sidReplace_ok]
  rfl

theorem parseSDDL_dacl (p : permissons) (body : Str) (ys : List Str)
    (hb : colonFree (some body)) :
    parseSDDL p (('D' :: ':' :: body) :: ys)
      = (parseBody body).bind
          (fun r => parseSDDL { p with DaclInher := r.1, Dacl := r.2 } ys) := by
  rw [parseSDDL, Split_piece 'D' body (by decide) hb]
  simp only [elemAt_cons_zero, elemAt_cons_succ]
  have hO : (['D'] : Str) ≠ ['O'] := by decide
  have hG : (['D'] : Str) ≠ ['G'] := by decide
  simp only [bind, Except.bind, pure, Except.pure, hO, hG, if_false, if_true]

theorem parseSDDL_sacl (p : permissons) (body : Str) (ys : List Str)
    (hb : colonFree (some body)) :
    parseSDDL p (('S' :: ':' :: body) :: ys)
      = (parseBody body).bind
          (fun r => parseSDDL { p with SaclInger := r.1, Sacl := r.2 } ys) := by
  rw [parseSDDL, Split_piece 'S' body (by decide) hb]
  simp only [elemAt_cons_zero, elemAt_cons_succ]
  have hO : (['S'] : Str) ≠ ['O'] := by decide
  have hG : (['S'] : Str) ≠ ['G'] := by decide
  have hD : (['S'] : Str) ≠ ['D'] := by decide
  simp only [bind, Except.bind, pure, Except.pure, hO, hG, hD, if_false, if_true]

/-- Decoding a text made of `:`-free sections in the order O, G, D, S
dispatches every present section on its own body. -/
theorem decode_sddlOf (o g d s : Option Str)
    (ho : colonFree o) (hg : colonFree g) (hd : colonFree d) (hs : colonFree s) :
    decode (sddlOf o g d s) = decodeSections_spec o g d s := by
  unfold decode findIndex sliceSDDL
  rw [findIndexResult_sddlOf o g d s ho hg hd hs]
  have hl := sliceLoop_bounds (sectionSlices 'O' o ++ (sectionSlices 'G' g ++
          (sectionSlices 'D' d ++ sectionSlices 'S' s))) []
  rw [← sddlOf_eq_flatten] at hl
  rw [show (0 : Nat) = ([] : Str).length from rfl, hl]
  show parseSDDL permissons.zero _ = _
  unfold decodeSections_spec
  rcases o with _ | ob <;> rcases g with _ | gb <;> rcases d with _ | db <;>
    rcases s with _ | sb <;>
    simp only [sectionSlices, List.nil_append, List.cons_append, sidReplace_ok,
      sidOf, aclOf, parseSDDL_nil, parseSDDL_owner, parseSDDL_primary, parseSDDL_dacl, parseSDDL_sacl,
      ho, hg, hd, hs]
  all_goals try cases parseBody db
  all_goals try cases parseBody sb
  all_goals rfl

/-- The sectionwise decode can only fail with the failure of `parseBody` on a
present D or S body. -/
theorem decodeSections_spec_error (o g d s : Option Str) (e : Fault)
    (h : decodeSections_spec o g d s = .error e) :
    (∃ body, d = some body ∧ parseBody body = .error e)
    ∨ (∃ body, s = some body ∧ parseBody body = .error e) := by
  unfold decodeSections_spec at h
  have ho : ∃ x, sidOf o = .ok x := by
    cases o
    · exact ⟨_, rfl⟩
    · exact ⟨_, sidReplace_ok _⟩
  have hg : ∃ x, sidOf g = .ok x := by
    cases g
    · exact ⟨_, rfl⟩
    · exact ⟨_, sidReplace_ok _⟩
  obtain ⟨x, hx⟩ := ho
  obtain ⟨y, hy⟩ := hg
  rw [hx, hy] at h
  rcases d with _ | db
  · rcases s with _ | sb
    · cases h
    · right
      refine ⟨sb, rfl, ?_⟩
      simp only [aclOf] at h
      generalize parseBody sb = r at h ⊢
      cases r with
      | error e' => cases h; rfl
      | ok v => cases h
  · simp only [aclOf] at h
    generalize hrd : parseBody db = rd at h
    cases rd with
    | error e' =>
      left
      refine ⟨db, rfl, ?_⟩
      cases h
      exact hrd
    | ok v =>
      rcases s with _ | sb
      · cases h
      · right
        refine ⟨sb, rfl, ?_⟩
        simp only [aclOf] at h
        generalize parseBody sb = r at h ⊢
        cases r with
        | error e' => cases h; rfl
        | ok v => cases h

/-! ## ACL bodies -/

theorem parseBody_of_paren (t : Str) :
    parseBody ('(' :: t) = (splitBody ('(' :: t)).bind (fun es => .ok ([], es)) := by
  unfold parseBody
  rw [Index_cons_self]
  simp only [ne_eq, not_true_eq_false, if_false]
  rfl

theorem Split_segment_aclText (x : Str) (hx : '(' ∉ x) : ∀ aces : List Str,
    (∀ a ∈ aces, '(' ∉ a) →
    Split (x ++ aclText aces) '(' = x :: aces.map (fun a => a ++ [')'])
  | [], _ => by simp [aclText, Split_of_not_mem x '(' hx]
  | a :: rest, h => by
    have ha : '(' ∉ a ++ [')'] := by
      have := h a (List.mem_cons_self _ _)
      simp [this]
    have ih := Split_segment_aclText (a ++ [')']) ha rest
      (fun b hb => h b (List.mem_cons_of_mem _ hb))
    simp only [aclText]
    rw [Split_append_sep x _ '(' hx]
    simp only [List.append_assoc, List.singleton_append] at ih
    rw [ih]
    simp

theorem Split_aclText (aces : List Str) (h : ∀ a ∈ aces, '(' ∉ a) :
    Split (aclText aces) '(' = [] :: aces.map (fun a => a ++ [')']) := by
  have := Split_segment_aclText [] (by simp) aces h
  simpa using this

theorem splitBodyLoop_segments : ∀ (aces : List Str) (es arr : List entryACLInternal),
    List.Forall₂ (fun a e => splitBodyACL a = .ok e) aces es →
    splitBodyLoop (aces.map (fun a => a ++ [')'])) arr = .ok (arr ++ es)
  | [], es, arr, h => by
    cases h
    simp [splitBodyLoop]
  | a :: rest, es, arr, h => by
    cases h with
    | cons hae hrest =>
      rename_i e es'
      have ih := splitBodyLoop_segments rest es' (arr ++ [e]) hrest
      have hne : a ++ [')'] ≠ [] := by simp
      simp only [List.map_cons, splitBodyLoop, hne, ne_eq, not_false_eq_true, if_true,
        TrimSuffix_append_paren, hae]
      simpa [bind, Except.bind] using ih

theorem entries_exist : ∀ aces : List Str, (∀ a ∈ aces, 6 ≤ (Split a ';').length) →
    ∃ es, List.Forall₂ (fun a e => splitBodyACL a = .ok e) aces es
  | [], _ => ⟨[], List.Forall₂.nil⟩
  | a :: rest, h => by
    obtain ⟨es, hes⟩ := entries_exist rest (fun b hb => h b (List.mem_cons_of_mem _ hb))
    obtain ⟨f0, f1, f2, f3, f4, f5, r, hs⟩ :=
      six_fields (Split a ';') (h a (List.mem_cons_self _ _))
    exact ⟨_ :: es, List.Forall₂.cons (splitBodyACL_of_fields a f0 f1 f2 f3 f4 f5 r hs) hes⟩

theorem splitBody_aclText (aces : List Str) (es : List entryACLInternal)
    (hp : ∀ a ∈ aces, '(' ∉ a)
    (h : List.Forall₂ (fun a e => splitBodyACL a = .ok e) aces es) :
    splitBody (aclText aces) = .ok es := by
  unfold splitBody
  rw [Split_aclText aces hp]
  have := splitBodyLoop_segments aces es [] h
  simpa [splitBodyLoop] using this

/-- An ACL body holding one ACE with fewer than six fields makes the ACL
body parser fail. -/
theorem parseBody_short_ace (a : Str) (h1 : '(' ∉ a) (h3 : (Split a ';').length < 6) :
    parseBody ('(' :: (a ++ [')'])) = .error .indexOutOfRange := by
  rw [parseBody_of_paren]
  unfold splitBody
  have hs := Split_aclText [a] (by simpa using h1)
  simp only [aclText, List.map_cons, List.map_nil] at hs
  rw [hs]
  have hne : a ++ [')'] ≠ [] := by simp
  simp only [splitBodyLoop, ne_eq, not_true_eq_false, if_false, hne, not_false_eq_true, if_true,
    TrimSuffix_append_paren, splitBodyACL_of_short a h3]
  rfl

/-! ## The inheritance-flag prefix of an ACL body -/

theorem first_occurrence (c : Char) : ∀ s : Str, c ∈ s →
    ∃ pre rest, s = pre ++ c :: rest ∧ c ∉ pre
  | [], h => by simp at h
  | x :: xs, h => by
    by_cases hx : x = c
    · exact ⟨[], xs, by simp [hx], by simp⟩
    · have hm : c ∈ xs := by
        rcases List.mem_cons.mp h with h1 | h1
        · exact absurd h1.symm hx
        · exact h1
      obtain ⟨pre, rest, he, hn⟩ := first_occurrence c xs hm
      refine ⟨x :: pre, rest, by simp [he], ?_⟩
      intro hmem
      rcases List.mem_cons.mp hmem with h1 | h1
      · exact hx h1.symm
      · exact hn h1

theorem indexFrom_single_not_mem (c : Char) : ∀ (s : Str) (k : Nat), c ∉ s →
    indexFrom [c] s k = -1
  | [], k, _ => by simp [indexFrom]
  | x :: xs, k, h => by
    have hx : ¬ c = x := fun e => h (by simp [e])
    have hxs : c ∉ xs := fun m => h (List.mem_cons_of_mem _ m)
    simp [indexFrom, List.isPrefixOf, hx, indexFrom_single_not_mem c xs (k + 1) hxs]

theorem indexFrom_single_append (c : Char) (rest : Str) : ∀ (pre : Str) (k : Nat), c ∉ pre →
    indexFrom [c] (pre ++ c :: rest) k = ((k + pre.length : Nat) : Int)
  | [], k, _ => by simp [indexFrom, List.isPrefixOf]
  | x :: xs, k, h => by
    have hx : ¬ c = x := fun e => h (by simp [e])
    have hxs : c ∉ xs := fun m => h (List.mem_cons_of_mem _ m)
    have ih := indexFrom_single_append c rest xs (k + 1) hxs
    have e : k + 1 + xs.length = k + (xs.length + 1) := by omega
    have hp : List.isPrefixOf [c] (x :: (xs ++ c :: rest)) = false := by
      simp [List.isPrefixOf, hx]
    simp only [List.cons_append]
    rw [indexFrom, hp]
    simp only [Bool.false_eq_true, if_false, ih, List.length_cons, e]

theorem chunk2_mem_length : ∀ (s c : Str), c ∈ chunk2 s → c.length = 2
  | [], c, h => by simp [chunk2] at h
  | [_], c, h => by simp [chunk2] at h
  | a :: b :: rest, c, h => by
    simp only [chunk2, List.mem_cons] at h
    rcases h with h | h
    · simp [h]
    · exact chunk2_mem_length rest c h

theorem inheritLoop_eq : ∀ (cs arr : List Str), (∀ c ∈ cs, c.length = 2) →
    inheritLoop cs arr = .ok (arr ++ cs.map (resolve sddlInheritanceFlags))
  | [], arr, _ => by simp [inheritLoop]
  | c :: cs, arr, h => by
    have hc : ¬ c.length > 2 := by
      have := h c (List.mem_cons_self _ _)
      omega
    have ih := inheritLoop_eq cs (arr ++ [resolve sddlInheritanceFlags c])
      (fun d hd => h d (List.mem_cons_of_mem _ hd))
    simp only [inheritLoop, elemAt_replacer_zero, hc, if_false]
    simpa [bind, Except.bind] using ih

theorem parseBody_no_paren (body : Str) (h : '(' ∉ body) :
    parseBody body = .error .sliceBounds := by
  unfold parseBody
  have hi : Index body ['('] = -1 := indexFrom_single_not_mem '(' body 0 h
  rw [hi]
  simp [slice]
  rfl

theorem parseBody_of_flag_text (pre rest : Str) (hne : pre ≠ []) (h : '(' ∉ pre) :
    parseBody (pre ++ '(' :: rest)
      = (splitBody ('(' :: rest)).bind (fun es => .ok (inheritFlagsOf pre, es)) := by
  unfold parseBody
  have hi : Index (pre ++ '(' :: rest) ['('] = (pre.length : Int) := by
    have := indexFrom_single_append '(' rest pre 0 h
    simpa [Index] using this
  have hpos : 0 < pre.length := List.length_pos.mpr hne
  have hnz : (pre.length : Int) ≠ 0 := by omega
  have s1 : slice (pre ++ '(' :: rest) 0 (pre.length : Int) = .ok pre := by
    have := slice_middle [] pre ('(' :: rest)
    simpa using this
  have s2 : slice (pre ++ '(' :: rest) (pre.length : Int)
      ((pre ++ '(' :: rest).length : Int) = .ok ('(' :: rest) := by
    have := slice_middle pre ('(' :: rest) []
    simp only [List.append_nil] at this
    rw [← List.length_append] at this
    exact this
  rw [hi]
  simp only [ne_eq, hnz, not_false_eq_true, if_true, s1, s2]
  unfold inheritFlagsOf
  by_cases hl : pre.length > 2
  · simp only [bind, Except.bind, pure, Except.pure, hl, if_true,
      inheritLoop_eq (chunk2 pre) [] (chunk2_mem_length pre), List.nil_append]
  · simp only [bind, Except.bind, pure, Except.pure, hl, if_false]

theorem resolve_inherit_ne_protected (c : Str) (hc : c.length = 2) :
    resolve sddlInheritanceFlags c ≠ "DDL_PROTECTED".toList := by
  match c, hc with
  | [a, b], _ =>
    by_cases h1 : ([a, b] : Str) = "AI".toList
    · rw [h1]
      decide
    · by_cases h2 : ([a, b] : Str) = "AR".toList
      · rw [h2]
        decide
      · have hP : (([a, b] : Str) == "P".toList) = false := by
          simp [List.beq_cons₂]
        have hAI : (([a, b] : Str) == "AI".toList) = false := by
          simpa using h1
        have hAR : (([a, b] : Str) == "AR".toList) = false := by
          simpa using h2
        have hl : sddlInheritanceFlags.lookup [a, b] = none := by
          simp only [sddlInheritanceFlags, List.lookup, hP, hAI, hAR]
        rw [resolve_of_none _ _ hl]
        intro h
        have := congrArg List.length h
        simp at this

/-- No inheritance flag returned by `parseBody` is the label `DDL_PROTECTED`. -/
theorem parseBody_flags_not_protected (body : Str) (r : List Str × List entryACLInternal)
    (h : parseBody body = .ok r) : "DDL_PROTECTED".toList ∉ r.1 := by
  by_cases hm : '(' ∈ body
  · obtain ⟨pre, rest, he, hn⟩ := first_occurrence '(' body hm
    subst he
    by_cases hpre : pre = []
    · subst hpre
      rw [List.nil_append, parseBody_of_paren] at h
      cases hs : splitBody ('(' :: rest) with
      | error e => rw [hs] at h; cases h
      | ok es =>
        rw [hs] at h
        cases h
        simp
    · rw [parseBody_of_flag_text pre rest hpre hn] at h
      cases hs : splitBody ('(' :: rest) with
      | error e => rw [hs] at h; cases h
      | ok es =>
        rw [hs] at h
        cases h
        show "DDL_PROTECTED".toList ∉ inheritFlagsOf pre
        unfold inheritFlagsOf
        split
        · intro hmem
          obtain ⟨c, hc, hce⟩ := List.mem_map.mp hmem
          exact resolve_inherit_ne_protected c (chunk2_mem_length pre c hc) hce
        · simp
  · rw [parseBody_no_paren body hm] at h
    cases h

/-! ## The dispatcher -/

theorem parseSDDL_cons (p : permissons) (y : Str) (ys : List Str) :
    parseSDDL p (y :: ys) = (dispatch p y).bind (fun q => parseSDDL q ys) := by
  rw [parseSDDL]
  unfold dispatch
  dsimp only
  generalize elemAt (Split y ':') 0 = r0
  generalize elemAt (Split y ':') 1 = r1
  cases r0 with
  | error e => rfl
  | ok letter =>
    cases r1 with
    | error e => rfl
    | ok body =>
      simp only [bind, Except.bind, pure, Except.pure]
      split_ifs
      · cases sidReplace body <;> rfl
      · cases sidReplace body <;> rfl
      · cases parseBody body <;> rfl
      · cases parseBody body <;> rfl
      · rfl

theorem dispatch_owner (p : permissons) (y body : Str) (rest : List Str)
    (h : Split y ':' = ['O'] :: body :: rest) :
    dispatch p y = .ok { p with Owner := resolveSid_spec body } := by
  unfold dispatch
  simp only [h, elemAt_cons_zero, elemAt_cons_succ, sidReplace_ok]
  rfl

theorem dispatch_primary (p : permissons) (y body : Str) (rest : List Str)
    (h : Split y ':' = ['G'] :: body :: rest) :
    dispatch p y = .ok { p with Primary := resolveSid_spec body } := by
  unfold dispatch
  simp only [h, elemAt_cons_zero, elemAt_cons_succ, sidReplace_ok]
  rfl

theorem dispatch_dacl (p : permissons) (y body : Str) (rest : List Str)
    (h : Split y ':' = ['D'] :: body :: rest) :
    dispatch p y
      = (parseBody body).bind (fun r => .ok { p with DaclInher := r.1, Dacl := r.2 }) := by
  unfold dispatch
  simp only [h, elemAt_cons_zero, elemAt_cons_succ]
  have hO : (['D'] : Str) ≠ ['O'] := by decide
  have hG : (['D'] : Str) ≠ ['G'] := by decide
  simp only [bind, Except.bind, pure, Except.pure, hO, hG, if_false, if_true]

theorem dispatch_sacl (p : permissons) (y body : Str) (rest : List Str)
    (h : Split y ':' = ['S'] :: body :: rest) :
    dispatch p y
      = (parseBody body).bind (fun r => .ok { p with SaclInger := r.1, Sacl := r.2 }) := by
  unfold dispatch
  simp only [h, elemAt_cons_zero, elemAt_cons_succ]
  have hO : (['S'] : Str) ≠ ['O'] := by decide
  have hG : (['S'] : Str) ≠ ['G'] := by decide
  have hD : (['S'] : Str) ≠ ['D'] := by decide
  simp only [bind, Except.bind, pure, Except.pure, hO, hG, hD, if_false, if_true]

/-- What a successful turn of the dispatcher does to the permission set. -/
theorem dispatch_ok_cases (p q : permissons) (y : Str) (h : dispatch p y = .ok q) :
    (∃ body, q = { p with Owner := resolveSid_spec body })
    ∨ (∃ body, q = { p with Primary := resolveSid_spec body })
    ∨ (∃ body r, parseBody body = .ok r ∧ q = { p with DaclInher := r.1, Dacl := r.2 })
    ∨ (∃ body r, parseBody body = .ok r ∧ q = { p with SaclInger := r.1, Sacl := r.2 }) := by
  unfold dispatch at h
  dsimp only at h
  cases h0 : elemAt (Split y ':') 0 with
  | error e => rw [h0] at h; cases h
  | ok letter =>
    cases h1 : elemAt (Split y ':') 1 with
    | error e => rw [h0, h1] at h; cases h
    | ok body =>
      rw [h0, h1] at h
      simp only [bind, Except.bind, pure, Except.pure, sidReplace_ok] at h
      by_cases cO : letter = ['O']
      · simp only [cO, if_true] at h
        exact Or.inl ⟨body, (Except.ok.inj h).symm⟩
      · by_cases cG : letter = ['G']
        · simp only [cO, cG, if_true, if_false] at h
          exact Or.inr (Or.inl ⟨body, (Except.ok.inj h).symm⟩)
        · by_cases cD : letter = ['D']
          · simp only [cO, cG, cD, if_true, if_false] at h
            cases hb : parseBody body with
            | error e => rw [hb] at h; cases h
            | ok r =>
              rw [hb] at h
              exact Or.inr (Or.inr (Or.inl ⟨body, r, hb, (Except.ok.inj h).symm⟩))
          · by_cases cS : letter = ['S']
            · simp only [cO, cG, cD, cS, if_true, if_false] at h
              cases hb : parseBody body with
              | error e => rw [hb] at h; cases h
              | ok r =>
                rw [hb] at h
                exact Or.inr (Or.inr (Or.inr ⟨body, r, hb, (Except.ok.inj h).symm⟩))
            · simp only [cO, cG, cD, cS, if_false] at h
              cases h

theorem decode_eq (str : Str) :
    decode str = (sliceLoop str (findIndexResult str)).bind (parseSDDL permissons.zero) := by
  unfold decode findIndex sliceSDDL
  cases sliceLoop str (findIndexResult str) <;> rfl

theorem parseSDDL_fails_of_bad_slice : ∀ (ys : List Str) (p : permissons) (y : Str)
    (L : Char) (body : Str) (rest : List Str),
    y ∈ ys → (L = 'D' ∨ L = 'S') → Split y ':' = [L] :: body :: rest → '(' ∉ body →
    ∃ e, parseSDDL p ys = .error e
  | [], _, _, _, _, _, hy, _, _, _ => by simp at hy
  | y0 :: ys, p, y, L, body, rest, hy, hL, hs, hb => by
    rw [parseSDDL_cons]
    cases hd : dispatch p y0 with
    | error e => exact ⟨e, rfl⟩
    | ok q =>
      rcases List.mem_cons.mp hy with h0 | h0
      · subst h0
        exfalso
        rcases hL with hL | hL
        · subst hL
          rw [dispatch_dacl p y body rest hs, parseBody_no_paren body hb] at hd
          cases hd
        · subst hL
          rw [dispatch_sacl p y body rest hs, parseBody_no_paren body hb] at hd
          cases hd
      · exact parseSDDL_fails_of_bad_slice ys q y L body rest h0 hL hs hb

theorem parseSDDL_flags_not_protected : ∀ (ys : List Str) (p q : permissons),
    parseSDDL p ys = .ok q →
    "DDL_PROTECTED".toList ∉ p.DaclInher → "DDL_PROTECTED".toList ∉ p.SaclInger →
    "DDL_PROTECTED".toList ∉ q.DaclInher ∧ "DDL_PROTECTED".toList ∉ q.SaclInger
  | [], p, q, h, hd, hs => by
    rw [parseSDDL_nil] at h
    cases h
    exact ⟨hd, hs⟩
  | y :: ys, p, q, h, hd, hs => by
    rw [parseSDDL_cons] at h
    cases hy : dispatch p y with
    | error e => rw [hy] at h; cases h
    | ok p1 =>
      rw [hy] at h
      have ih := parseSDDL_flags_not_protected ys p1 q h
      rcases dispatch_ok_cases p p1 y hy with ⟨b, rfl⟩ | ⟨b, rfl⟩ | ⟨b, r, hr, rfl⟩ | ⟨b, r, hr, rfl⟩
      · exact ih hd hs
      · exact ih hd hs
      · exact ih (parseBody_flags_not_protected b r hr) hs
      · exact ih hd (parseBody_flags_not_protected b r hr)

/-! ## Marker search and slicing, for an arbitrary text -/

theorem indexFrom_spec (sub : Str) : ∀ (s : Str) (k : Nat),
    indexFrom sub s k = -1 ∨
    ∃ j : Nat, indexFrom sub s k = ((k + j : Nat) : Int) ∧ sub <+: s.drop j
  | [], k => by
    unfold indexFrom
    by_cases h : sub = []
    · right
      exact ⟨0, by simp [h], by simp [h]⟩
    · left
      simp [h]
  | c :: cs, k => by
    unfold indexFrom
    by_cases h : sub.isPrefixOf (c :: cs) = true
    · right
      exact ⟨0, by simp [h], by simpa [List.isPrefixOf_iff_prefix] using h⟩
    · rcases indexFrom_spec sub cs (k + 1) with h1 | ⟨j, hj, hp⟩
      · left
        simp [h, h1]
      · right
        refine ⟨j + 1, ?_, by simpa using hp⟩
        have e : k + 1 + j = k + (j + 1) := by omega
        rw [if_neg h, hj, e]

/-- A marker that is found lies at an index where the text reads `letter:`. -/
theorem Index_marker (str m : Str) (hm : m ∈ groups) (hp : Index str m ≠ -1) :
    ∃ (a : Nat) (L : Char) (t : Str), L ∈ ['O', 'G', 'D', 'S'] ∧ m = [L, ':']
      ∧ Index str m = (a : Int) ∧ str.drop a = L :: ':' :: t := by
  rcases indexFrom_spec m str 0 with h | ⟨j, hj, hpre⟩
  · exact absurd h hp
  · obtain ⟨t, ht⟩ := hpre
    have hj' : Index str m = (j : Int) := by
      simpa [Index] using hj
    simp only [groups, List.mem_cons, List.mem_singleton, List.not_mem_nil, or_false] at hm
    rcases hm with rfl | rfl | rfl | rfl
    · exact ⟨j, 'O', t, by simp, rfl, hj', ht.symm⟩
    · exact ⟨j, 'G', t, by simp, rfl, hj', ht.symm⟩
    · exact ⟨j, 'D', t, by simp, rfl, hj', ht.symm⟩
    · exact ⟨j, 'S', t, by simp, rfl, hj', ht.symm⟩

theorem drop_marker_bound (str : Str) (a : Nat) (L : Char) (t : Str)
    (h : str.drop a = L :: ':' :: t) : a + 2 ≤ str.length := by
  have := congrArg List.length h
  simp only [List.length_drop, List.length_cons] at this
  omega

/-- Two different markers found at `a ≤ b` are at least 2 characters apart. -/
theorem markers_apart (str : Str) (a b : Nat) (L L' : Char) (t t' : Str)
    (ha : str.drop a = L :: ':' :: t) (hb : str.drop b = L' :: ':' :: t')
    (hne : L ≠ L') (hc : L' ≠ ':') (hab : a ≤ b) : a + 2 ≤ b := by
  by_contra hcon
  have hcases : b = a ∨ b = a + 1 := by omega
  rcases hcases with rfl | rfl
  · rw [ha] at hb
    exact hne (List.cons.inj hb).1
  · have : str.drop (a + 1) = ':' :: t := by
      have h1 : str.drop (a + 1) = (str.drop a).drop 1 := by
        rw [List.drop_drop]
      rw [h1, ha]
      rfl
    rw [this] at hb
    exact hc (List.cons.inj hb).1.symm

theorem cut_marker (str : Str) (a b : Nat) (L : Char) (t : Str)
    (ha : str.drop a = L :: ':' :: t) (hab : a + 2 ≤ b) :
    cut str (a : Int) (b : Int) = L :: ':' :: t.take (b - a - 2) := by
  unfold cut
  rw [Int.toNat_ofNat, Int.toNat_ofNat, ha]
  obtain ⟨n, hn⟩ : ∃ n, b - a = n + 2 := ⟨b - a - 2, by omega⟩
  rw [hn]
  simp

theorem slice_ok_iff (str : Str) (a b : Int) (y : Str) :
    slice str a b = .ok y ↔ (0 ≤ a ∧ a ≤ b ∧ b ≤ (str.length : Int)) ∧ y = cut str a b := by
  unfold slice cut
  by_cases h : 0 ≤ a ∧ a ≤ b ∧ b ≤ (str.length : Int)
  · rw [if_pos h]
    constructor
    · intro hy
      exact ⟨h, (Except.ok.inj hy).symm⟩
    · rintro ⟨_, rfl⟩
      rfl
  · rw [if_neg h]
    constructor
    · intro hy
      cases hy
    · rintro ⟨h', _⟩
      exact absurd h' h

theorem slice_error (str : Str) (a b : Int) (e : Fault) (h : slice str a b = .error e) :
    e = .sliceBounds := by
  unfold slice at h
  split at h
  · cases h
  · exact (Except.error.inj h).symm

theorem sliceLoop_error (str : Str) : ∀ (l : List Int) (e : Fault),
    sliceLoop str l = .error e → e = .sliceBounds
  | [], e, h => by simp [sliceLoop] at h
  | [_], e, h => by simp [sliceLoop] at h
  | a :: b :: rest, e, h => by
    rw [sliceLoop] at h
    cases hs : slice str a b with
    | error e1 =>
      rw [hs] at h
      have := slice_error str a b e1 hs
      cases h
      exact this
    | ok y =>
      rw [hs] at h
      cases hl : sliceLoop str (b :: rest) with
      | error e2 =>
        rw [hl] at h
        have := sliceLoop_error str (b :: rest) e2 hl
        cases h
        exact this
      | ok ys =>
        rw [hl] at h
        cases h

theorem sliceLoop_ok (str : Str) : ∀ (l : List Int) (slices : List Str),
    sliceLoop str l = .ok slices → slices = cuts str l ∧ List.Chain' (· ≤ ·) l
  | [], slices, h => by
    simp only [sliceLoop] at h
    cases h
    exact ⟨rfl, List.chain'_nil⟩
  | [_], slices, h => by
    simp only [sliceLoop] at h
    cases h
    exact ⟨rfl, List.chain'_singleton _⟩
  | a :: b :: rest, slices, h => by
    rw [sliceLoop] at h
    cases hs : slice str a b with
    | error e1 => rw [hs] at h; cases h
    | ok y =>
      rw [hs] at h
      cases hl : sliceLoop str (b :: rest) with
      | error e2 => rw [hl] at h; cases h
      | ok ys =>
        rw [hl] at h
        have ih := sliceLoop_ok str (b :: rest) ys hl
        have hy := (slice_ok_iff str a b y).mp hs
        cases h
        refine ⟨?_, List.chain'_cons.mpr ⟨hy.1.2.1, ih.2⟩⟩
        simp only [cuts, hy.2, ih.1]

theorem sliceLoop_of_chain (str : Str) : ∀ (l : List Int), List.Chain' (· ≤ ·) l →
    (∀ x ∈ l, 0 ≤ x ∧ x ≤ (str.length : Int)) → sliceLoop str l = .ok (cuts str l)
  | [], _, _ => by simp [sliceLoop, cuts]
  | [_], _, _ => by simp [sliceLoop, cuts]
  | a :: b :: rest, hc, hb => by
    have hab := (List.chain'_cons.mp hc).1
    have ih := sliceLoop_of_chain str (b :: rest) (List.chain'_cons.mp hc).2
      (fun x hx => hb x (List.mem_cons_of_mem _ hx))
    have hs : slice str a b = .ok (cut str a b) :=
      (slice_ok_iff str a b _).mpr
        ⟨⟨(hb a (List.mem_cons_self _ _)).1, hab,
          (hb b (List.mem_cons_of_mem _ (List.mem_cons_self _ _))).2⟩, rfl⟩
    rw [sliceLoop, hs, ih]
    rfl

theorem markerIndices_eq (str : Str) :
    markerIndices str = (presentMarkers str).map (Index str) := by
  have eO : "O:".toList = ['O', ':'] := rfl
  have eG : "G:".toList = ['G', ':'] := rfl
  have eD : "D:".toList = ['D', ':'] := rfl
  have eS : "S:".toList = ['S', ':'] := rfl
  simp only [markerIndices, presentMarkers, groups, List.foldl_cons, List.foldl_nil,
    eO, eG, eD, eS]
  by_cases hO : Index str ['O', ':'] = -1 <;> by_cases hG : Index str ['G', ':'] = -1 <;>
    by_cases hD : Index str ['D', ':'] = -1 <;> by_cases hS : Index str ['S', ':'] = -1 <;>
    simp [List.filter, hO, hG, hD, hS]

theorem findIndexResult_eq (str : Str) :
    findIndexResult str = (presentMarkers str).map (Index str) ++ [(str.length : Int)] := by
  rw [← markerIndices_eq]
  rfl

theorem presentMarkers_nodup (str : Str) : (presentMarkers str).Nodup :=
  List.Nodup.filter _ (by decide)

theorem presentMarkers_mem (str m : Str) (h : m ∈ presentMarkers str) :
    m ∈ groups ∧ Index str m ≠ -1 := by
  have := List.mem_filter.mp h
  exact ⟨this.1, by simpa using this.2⟩

/-- The first piece of a split is the text before the first separator. -/
theorem Split_head : ∀ (t : Str) (sep : Char),
    ∃ rest, Split t sep = t.takeWhile (fun c => decide (c ≠ sep)) :: rest
  | [], _ => ⟨[], by simp [Split]⟩
  | c :: cs, sep => by
    obtain ⟨rest, hr⟩ := Split_head cs sep
    by_cases hc : c = sep
    · exact ⟨Split cs sep, by simp [Split, hc]⟩
    · exact ⟨rest, by simp [Split, hc, hr]⟩

/-- A slice that starts with `letter:` splits into the letter, then the text
up to the next `:`. -/
theorem Split_marker_slice (L : Char) (t : Str) (hL : L ≠ ':') :
    ∃ rest, Split (L :: ':' :: t) ':'
      = [L] :: t.takeWhile (fun c => decide (c ≠ ':')) :: rest := by
  obtain ⟨rest, hr⟩ := Split_head t ':'
  have := Split_append_sep [L] t ':' (by simpa using Ne.symm hL)
  exact ⟨rest, by simpa [hr] using this⟩

/-- With boundaries in increasing order, every slice starts with the marker
it was cut at. -/
theorem cuts_markers (str : Str) : ∀ ms : List Str, ms.Nodup →
    (∀ m ∈ ms, m ∈ groups ∧ Index str m ≠ -1) →
    List.Chain' (· ≤ ·) (ms.map (Index str) ++ [(str.length : Int)]) →
    List.Forall₂ (fun m y => ∃ L t, L ∈ ['O', 'G', 'D', 'S'] ∧ m = [L, ':']
        ∧ y = L :: ':' :: t)
      ms (cuts str (ms.map (Index str) ++ [(str.length : Int)]))
  | [], _, _, _ => by simp [cuts]
  | [m], _, hm, _ => by
    obtain ⟨a, L, t, hL, rfl, ha, hd⟩ := Index_marker str m (hm m (by simp)).1 (hm m (by simp)).2
    have hb := drop_marker_bound str a L t hd
    have hc := cut_marker str a str.length L t hd hb
    simp only [List.map_cons, List.map_nil, List.singleton_append, cuts, ha, hc]
    exact List.Forall₂.cons ⟨L, _, hL, rfl, rfl⟩ List.Forall₂.nil
  | m :: m' :: ms, hnd, hm, hch => by
    obtain ⟨a, L, t, hL, hmL, ha, hd⟩ :=
      Index_marker str m (hm m (by simp)).1 (hm m (by simp)).2
    obtain ⟨b, L', t', hL', hmL', hb, hd'⟩ :=
      Index_marker str m' (hm m' (by simp)).1 (hm m' (by simp)).2
    have hne : L ≠ L' := by
      intro e
      have hmm : m = m' := by rw [hmL, hmL', e]
      exact (List.nodup_cons.mp hnd).1 (by simp [hmm])
    have hc' : L' ≠ ':' := by
      intro e
      subst e
      simp at hL'
    simp only [List.map_cons, List.cons_append] at hch
    have hab := (List.chain'_cons.mp hch).1
    rw [ha, hb] at hab
    have hab' : a ≤ b := by omega
    have h2 := markers_apart str a b L L' t t' hd hd' hne hc' hab'
    have hcut : cut str (Index str m) (Index str m') = L :: ':' :: t.take (b - a - 2) := by
      rw [ha, hb]
      exact cut_marker str a b L t hd h2
    have ih := cuts_markers str (m' :: ms) (List.nodup_cons.mp hnd).2
      (fun x hx => hm x (List.mem_cons_of_mem _ hx))
      (by simpa using (List.chain'_cons.mp hch).2)
    simp only [List.map_cons, List.cons_append] at ih ⊢
    simp only [cuts, hcut]
    exact List.Forall₂.cons ⟨L, _, hL, hmL, rfl⟩ ih

/-- Whenever the slicing step succeeds, the slices are the texts between
consecutive boundaries and each starts with the marker it was cut at. -/
theorem slices_start_with_markers (str : Str) (slices : List Str)
    (h : sliceLoop str (findIndexResult str) = .ok slices) :
    slices = cuts str (findIndexResult str)
    ∧ List.Forall₂ (fun m y => ∃ L t, L ∈ ['O', 'G', 'D', 'S'] ∧ m = [L, ':']
        ∧ y = L :: ':' :: t) (presentMarkers str) slices := by
  obtain ⟨hc, hch⟩ := sliceLoop_ok str _ slices h
  refine ⟨hc, ?_⟩
  rw [hc, findIndexResult_eq]
  rw [findIndexResult_eq] at hch
  exact cuts_markers str (presentMarkers str) (presentMarkers_nodup str)
    (presentMarkers_mem str) hch

theorem forall₂_right_mem {α β : Type} (R : α → β → Prop) : ∀ (l1 : List α) (l2 : List β),
    List.Forall₂ R l1 l2 → ∀ y ∈ l2, ∃ x ∈ l1, R x y
  | _, _, List.Forall₂.nil, y, hy => by simp at hy
  | _, _, List.Forall₂.cons hr ht, y, hy => by
    rcases List.mem_cons.mp hy with h | h
    · subst h
      exact ⟨_, List.mem_cons_self _ _, hr⟩
    · obtain ⟨x, hx, hR⟩ := forall₂_right_mem R _ _ ht y h
      exact ⟨x, List.mem_cons_of_mem _ hx, hR⟩

theorem marker_indices_bounds (str : Str) :
    ∀ x ∈ findIndexResult str, 0 ≤ x ∧ x ≤ (str.length : Int) := by
  intro x hx
  rw [findIndexResult_eq] at hx
  rcases List.mem_append.mp hx with h | h
  · obtain ⟨m, hm, rfl⟩ := List.mem_map.mp h
    obtain ⟨a, L, t, _, _, ha, hd⟩ :=
      Index_marker str m (presentMarkers_mem str m hm).1 (presentMarkers_mem str m hm).2
    have := drop_marker_bound str a L t hd
    rw [ha]
    omega
  · simp only [List.mem_singleton] at h
    subst h
    omega

theorem splitBodyACL_error_kind (a : Str) (e : Fault) (h : splitBodyACL a = .error e) :
    e = .indexOutOfRange := by
  by_cases hl : (Split a ';').length < 6
  · rw [splitBodyACL_of_short a hl] at h
    exact (Except.error.inj h).symm
  · obtain ⟨f0, f1, f2, f3, f4, f5, rest, hs⟩ := six_fields (Split a ';') (by omega)
    rw [splitBodyACL_of_fields a f0 f1 f2 f3 f4 f5 rest hs] at h
    cases h

theorem splitBodyLoop_error_kind : ∀ (ys : List Str) (arr : List entryACLInternal) (e : Fault),
    splitBodyLoop ys arr = .error e → e = .indexOutOfRange
  | [], arr, e, h => by simp [splitBodyLoop] at h
  | y :: ys, arr, e, h => by
    rw [splitBodyLoop] at h
    by_cases hy : y ≠ []
    · rw [if_pos hy] at h
      dsimp only at h
      cases ha : splitBodyACL (TrimSuffix y [')']) with
      | error e1 =>
        rw [ha] at h
        have := splitBodyACL_error_kind _ e1 ha
        cases h
        exact this
      | ok en =>
        rw [ha] at h
        exact splitBodyLoop_error_kind ys (arr ++ [en]) e h
    · rw [if_neg hy] at h
      exact splitBodyLoop_error_kind ys arr e h

theorem parseBody_error_kind (body : Str) (e : Fault) (h : parseBody body = .error e) :
    e = .sliceBounds ∨ e = .indexOutOfRange := by
  by_cases hm : '(' ∈ body
  · obtain ⟨pre, rest, he, hn⟩ := first_occurrence '(' body hm
    subst he
    right
    have key : ∀ f : List entryACLInternal → Except Fault (List Str × List entryACLInternal),
        (∀ es, ∃ r, f es = .ok r) → (splitBody ('(' :: rest)).bind f = .error e →
        e = .indexOutOfRange := by
      intro f hf hb
      cases hs : splitBody ('(' :: rest) with
      | error e1 =>
        rw [hs] at hb
        have := splitBodyLoop_error_kind _ _ e1 hs
        cases hb
        exact this
      | ok es =>
        rw [hs] at hb
        obtain ⟨r, hr⟩ := hf es
        have hb' : f es = .error e := hb
        rw [hr] at hb'
        cases hb'
    by_cases hpre : pre = []
    · subst hpre
      rw [List.nil_append, parseBody_of_paren] at h
      exact key _ (fun es => ⟨_, rfl⟩) h
    · rw [parseBody_of_flag_text pre rest hpre hn] at h
      exact key _ (fun es => ⟨_, rfl⟩) h
  · left
    rw [parseBody_no_paren body hm] at h
    exact (Except.error.inj h).symm

/-- On slices that start with one of the four markers the dispatcher never
takes its unknown-section branch. -/
theorem parseSDDL_no_unresolved : ∀ (ys : List Str) (p : permissons),
    (∀ y ∈ ys, ∃ L t, L ∈ ['O', 'G', 'D', 'S'] ∧ y = L :: ':' :: t) →
    parseSDDL p ys ≠ .error .unresolvedGroup
  | [], p, _ => by simp [parseSDDL_nil]
  | y :: ys, p, h => by
    obtain ⟨L, t, hL, hy⟩ := h y (List.mem_cons_self _ _)
    have ih := fun q => parseSDDL_no_unresolved ys q
      (fun z hz => h z (List.mem_cons_of_mem _ hz))
    have hbody : ∀ (body : Str) (f : List Str × List entryACLInternal → permissons),
        ((parseBody body).bind (fun r => Except.ok (f r))).bind (fun q => parseSDDL q ys)
          ≠ .error .unresolvedGroup := by
      intro body f
      cases hb : parseBody body with
      | error e =>
        intro hcon
        rcases parseBody_error_kind body e hb with h1 | h1 <;>
          · subst h1
            cases hcon
      | ok r => exact ih _
    rw [parseSDDL_cons]
    simp only [List.mem_cons, List.mem_singleton, List.not_mem_nil, or_false] at hL
    rcases hL with rfl | rfl | rfl | rfl
    · obtain ⟨rest, hs⟩ := Split_marker_slice 'O' t (by decide)
      rw [hy, dispatch_owner p _ _ rest hs]
      exact ih _
    · obtain ⟨rest, hs⟩ := Split_marker_slice 'G' t (by decide)
      rw [hy, dispatch_primary p _ _ rest hs]
      exact ih _
    · obtain ⟨rest, hs⟩ := Split_marker_slice 'D' t (by decide)
      rw [hy, dispatch_dacl p _ _ rest hs]
      exact hbody _ _
    · obtain ⟨rest, hs⟩ := Split_marker_slice 'S' t (by decide)
      rw [hy, dispatch_sacl p _ _ rest hs]
      exact hbody _ _

/-- Slices of the sections G, D and S leave the owner as it is. -/
theorem parseSDDL_owner_kept : ∀ (ys : List Str) (p q : permissons),
    (∀ y ∈ ys, ∃ L t, L ∈ ['G', 'D', 'S'] ∧ y = L :: ':' :: t) →
    parseSDDL p ys = .ok q → q.Owner = p.Owner
  | [], p, q, _, hq => by
    rw [parseSDDL_nil] at hq
    cases hq
    rfl
  | y :: ys, p, q, h, hq => by
    obtain ⟨L, t, hL, hy⟩ := h y (List.mem_cons_self _ _)
    have ih := fun p1 => parseSDDL_owner_kept ys p1 q
      (fun z hz => h z (List.mem_cons_of_mem _ hz))
    rw [parseSDDL_cons] at hq
    simp only [List.mem_cons, List.mem_singleton, List.not_mem_nil, or_false] at hL
    rcases hL with rfl | rfl | rfl
    · obtain ⟨rest, hs⟩ := Split_marker_slice 'G' t (by decide)
      rw [hy, dispatch_primary p _ _ rest hs] at hq
      have h1 := ih _ hq
      exact h1
    · obtain ⟨rest, hs⟩ := Split_marker_slice 'D' t (by decide)
      rw [hy, dispatch_dacl p _ _ rest hs] at hq
      cases hb : parseBody (t.takeWhile (fun c => decide (c ≠ ':'))) with
      | error e => rw [hb] at hq; cases hq
      | ok r =>
        rw [hb] at hq
        have h1 := ih _ hq
        exact h1
    · obtain ⟨rest, hs⟩ := Split_marker_slice 'S' t (by decide)
      rw [hy, dispatch_sacl p _ _ rest hs] at hq
      cases hb : parseBody (t.takeWhile (fun c => decide (c ≠ ':'))) with
      | error e => rw [hb] at hq; cases hq
      | ok r =>
        rw [hb] at hq
        have h1 := ih _ hq
        exact h1

theorem sliceLoop_of_increasing (str : Str)
    (h : (markerIndices str).Pairwise (· < ·)) :
    sliceLoop str (findIndexResult str) = .ok (cuts str (findIndexResult str)) := by
  apply sliceLoop_of_chain str _ _ (marker_indices_bounds str)
  apply List.Pairwise.chain'
  have hle : (markerIndices str).Pairwise (· ≤ ·) := h.imp (fun hab => le_of_lt hab)
  have hb := marker_indices_bounds str
  have he : findIndexResult str = markerIndices str ++ [(str.length : Int)] := rfl
  rw [he] at hb ⊢
  refine List.pairwise_append.mpr ⟨hle, List.pairwise_singleton _ _, ?_⟩
  intro a ha b hbm
  simp only [List.mem_singleton] at hbm
  subst hbm
  exact (hb a (List.mem_append_left _ ha)).2

/-- A marker found before an earlier marker of the fixed order makes the
slicing step fail. -/
theorem sliceLoop_out_of_order (str m1 m2 : Str) (hsub : List.Sublist [m1, m2] groups)
    (h1 : Index str m1 ≠ -1) (h2 : Index str m2 ≠ -1) (hlt : Index str m2 < Index str m1) :
    sliceLoop str (findIndexResult str) = .error .sliceBounds := by
  cases hs : sliceLoop str (findIndexResult str) with
  | error e => rw [sliceLoop_error str _ e hs]
  | ok slices =>
    exfalso
    have hch := (sliceLoop_ok str _ slices hs).2
    have hpw : (findIndexResult str).Pairwise (· ≤ ·) := List.chain'_iff_pairwise.mp hch
    have hf : List.Sublist [m1, m2] (presentMarkers str) := by
      have := hsub.filter (fun g => decide (Index str g ≠ -1))
      simpa [presentMarkers, List.filter, h1, h2] using this
    have hm : List.Sublist [Index str m1, Index str m2] (findIndexResult str) := by
      rw [findIndexResult_eq]
      exact (hf.map (Index str)).trans (List.sublist_append_left _ _)
    have := hpw.sublist hm
    simp only [List.pairwise_cons, List.mem_singleton, forall_eq, List.not_mem_nil,
      IsEmpty.forall_iff, implies_true, List.Pairwise.nil, and_true] at this
    omega

/-- The owner of a successful decode of a text that holds the marker `O:` is
resolved from the text after `O:` up to the next `:` or the end of the slice. -/
theorem decode_owner (str : Str) (p : permissons) (hO : Index str "O:".toList ≠ -1)
    (h : decode str = .ok p) :
    ∃ t ys, cuts str (findIndexResult str) = ('O' :: ':' :: t) :: ys
      ∧ p.Owner = resolveSid_spec (t.takeWhile (fun c => decide (c ≠ ':'))) := by
  rw [decode_eq] at h
  cases hs : sliceLoop str (findIndexResult str) with
  | error e => rw [hs] at h; cases h
  | ok slices =>
    rw [hs] at h
    obtain ⟨hc, hf⟩ := slices_start_with_markers str slices hs
    have hpm : presentMarkers str
        = "O:".toList :: ["G:".toList, "D:".toList, "S:".toList].filter
            (fun g => decide (Index str g ≠ -1)) := by
      simp only [presentMarkers, groups]
      rw [List.filter_cons_of_pos (by simpa using hO)]
    rw [hpm] at hf
    cases hf with
    | cons hy hrest =>
      rename_i y ys
      obtain ⟨L, t, _, hm, hy'⟩ := hy
      have hL : L = 'O' := by
        have := (List.cons.inj hm).1
        exact this.symm
      subst hL
      refine ⟨t, ys, by rw [← hc, hy'], ?_⟩
      have hform : ∀ z ∈ ys, ∃ L t, L ∈ ['G', 'D', 'S'] ∧ z = L :: ':' :: t := by
        intro z hz
        obtain ⟨m, hmem, L', t', _, hm', hz'⟩ := forall₂_right_mem _ _ _ hrest z hz
        have hmem' := (List.mem_filter.mp hmem).1
        refine ⟨L', t', ?_, hz'⟩
        subst hm'
        simp only [List.mem_cons, List.mem_singleton, List.not_mem_nil, or_false] at hmem'
        rcases hmem' with h1 | h1 | h1
        · have := (List.cons.inj h1).1
          simp [this]
        · have := (List.cons.inj h1).1
          simp [this]
        · have := (List.cons.inj h1).1
          simp [this]
      obtain ⟨rest, hsp⟩ := Split_marker_slice 'O' t (by decide)
      have hstep : parseSDDL permissons.zero (y :: ys) = .ok p := h
      rw [parseSDDL_cons, hy', dispatch_owner _ _ _ rest hsp] at hstep
      have := parseSDDL_owner_kept ys _ p hform hstep
      exact this

/-- A field of the permission set is left as it is by slices of the other
sections. -/
theorem parseSDDL_kept : ∀ (ys : List Str) (p q : permissons),
    (∀ y ∈ ys, ∃ L t, L ∈ ['O', 'G', 'D', 'S'] ∧ y = L :: ':' :: t) →
    parseSDDL p ys = .ok q →
    ((∀ t, ('O' :: ':' :: t) ∉ ys) → q.Owner = p.Owner)
    ∧ ((∀ t, ('G' :: ':' :: t) ∉ ys) → q.Primary = p.Primary)
    ∧ ((∀ t, ('D' :: ':' :: t) ∉ ys) → q.DaclInher = p.DaclInher ∧ q.Dacl = p.Dacl)
    ∧ ((∀ t, ('S' :: ':' :: t) ∉ ys) → q.SaclInger = p.SaclInger ∧ q.Sacl = p.Sacl)
  | [], p, q, _, hq => by
    rw [parseSDDL_nil] at hq
    cases hq
    exact ⟨fun _ => rfl, fun _ => rfl, fun _ => ⟨rfl, rfl⟩, fun _ => ⟨rfl, rfl⟩⟩
  | y :: ys, p, q, h, hq => by
    obtain ⟨L, t, hL, hy⟩ := h y (List.mem_cons_self _ _)
    subst hy
    have ih := fun p1 hq1 => parseSDDL_kept ys p1 q
      (fun z hz => h z (List.mem_cons_of_mem _ hz)) hq1
    have tl : ∀ {X : Char}, (∀ t', (X :: ':' :: t') ∉ (L :: ':' :: t) :: ys) →
        ∀ t', (X :: ':' :: t') ∉ ys :=
      fun hno t' hm => hno t' (List.mem_cons_of_mem _ hm)
    rw [parseSDDL_cons] at hq
    simp only [List.mem_cons, List.mem_singleton, List.not_mem_nil, or_false] at hL
    rcases hL with rfl | rfl | rfl | rfl
    · obtain ⟨rest, hs⟩ := Split_marker_slice 'O' t (by decide)
      rw [dispatch_owner p _ _ rest hs] at hq
      have h1 := ih _ hq
      exact ⟨fun hno => absurd (List.mem_cons_self _ _) (hno t),
        fun hno => h1.2.1 (tl hno), fun hno => h1.2.2.1 (tl hno),
        fun hno => h1.2.2.2 (tl hno)⟩
    · obtain ⟨rest, hs⟩ := Split_marker_slice 'G' t (by decide)
      rw [dispatch_primary p _ _ rest hs] at hq
      have h1 := ih _ hq
      exact ⟨fun hno => h1.1 (tl hno),
        fun hno => absurd (List.mem_cons_self _ _) (hno t), fun hno => h1.2.2.1 (tl hno),
        fun hno => h1.2.2.2 (tl hno)⟩
    · obtain ⟨rest, hs⟩ := Split_marker_slice 'D' t (by decide)
      rw [dispatch_dacl p _ _ rest hs] at hq
      cases hb : parseBody (t.takeWhile (fun c => decide (c ≠ ':'))) with
      | error e => rw [hb] at hq; cases hq
      | ok r =>
        rw [hb] at hq
        have h1 := ih _ hq
        exact ⟨fun hno => h1.1 (tl hno), fun hno => h1.2.1 (tl hno),
          fun hno => absurd (List.mem_cons_self _ _) (hno t),
          fun hno => h1.2.2.2 (tl hno)⟩
    · obtain ⟨rest, hs⟩ := Split_marker_slice 'S' t (by decide)
      rw [dispatch_sacl p _ _ rest hs] at hq
      cases hb : parseBody (t.takeWhile (fun c => decide (c ≠ ':'))) with
      | error e => rw [hb] at hq; cases hq
      | ok r =>
        rw [hb] at hq
        have h1 := ih _ hq
        exact ⟨fun hno => h1.1 (tl hno), fun hno => h1.2.1 (tl hno),
          fun hno => h1.2.2.1 (tl hno),
          fun hno => absurd (List.mem_cons_self _ _) (hno t)⟩

/-- On slices cut at pairwise different markers, every field of a successful
run of the dispatcher comes from the slice of its own section: from the text
after `letter:` up to the next `:` of that slice. -/
theorem parseSDDL_fields (ms ys : List Str)
    (hf : List.Forall₂ (fun m y => ∃ L t, L ∈ ['O', 'G', 'D', 'S'] ∧ m = [L, ':']
        ∧ y = L :: ':' :: t) ms ys) :
    ms.Nodup → ∀ (p q : permissons), parseSDDL p ys = .ok q → ∀ y ∈ ys, ∀ t : Str,
      (y = 'O' :: ':' :: t →
        q.Owner = resolveSid_spec (t.takeWhile (fun c => decide (c ≠ ':'))))
      ∧ (y = 'G' :: ':' :: t →
        q.Primary = resolveSid_spec (t.takeWhile (fun c => decide (c ≠ ':'))))
      ∧ (y = 'D' :: ':' :: t →
        parseBody (t.takeWhile (fun c => decide (c ≠ ':'))) = .ok (q.DaclInher, q.Dacl))
      ∧ (y = 'S' :: ':' :: t →
        parseBody (t.takeWhile (fun c => decide (c ≠ ':'))) = .ok (q.SaclInger, q.Sacl)) := by
  induction hf with
  | nil =>
    intro _ p q _ y hy
    simp at hy
  | cons hR hrest ih =>
    rename_i m y0 ms1 ys1
    intro hnd p q hq y hy t
    obtain ⟨L, t0, hL, hm, hy0⟩ := hR
    subst hy0
    have hnd1 := List.nodup_cons.mp hnd
    have hforms : ∀ z ∈ ys1, ∃ L1 t1, L1 ∈ ['O', 'G', 'D', 'S'] ∧ z = L1 :: ':' :: t1 := by
      intro z hz
      obtain ⟨_, _, L1, t1, hL1, _, hz1⟩ := forall₂_right_mem _ _ _ hrest z hz
      exact ⟨L1, t1, hL1, hz1⟩
    have hno : ∀ t1, (L :: ':' :: t1) ∉ ys1 := by
      intro t1 hmem
      obtain ⟨m1, hm1, L1, t2, _, hm1e, hz1⟩ := forall₂_right_mem _ _ _ hrest _ hmem
      have hLL : L = L1 := (List.cons.inj hz1).1
      have : m1 = m := by rw [hm1e, hm, hLL]
      rw [this] at hm1
      exact hnd1.1 hm1
    rw [parseSDDL_cons] at hq
    rcases List.mem_cons.mp hy with hy1 | hy1
    · subst hy1
      simp only [List.mem_cons, List.mem_singleton, List.not_mem_nil, or_false] at hL
      rcases hL with rfl | rfl | rfl | rfl
      · obtain ⟨rest, hs⟩ := Split_marker_slice 'O' t0 (by decide)
        rw [dispatch_owner p _ _ rest hs] at hq
        have hk := (parseSDDL_kept ys1 _ q hforms hq).1 hno
        refine ⟨fun e => ?_, fun e => absurd (List.cons.inj e).1 (by decide),
          fun e => absurd (List.cons.inj e).1 (by decide),
          fun e => absurd (List.cons.inj e).1 (by decide)⟩
        have ht : t0 = t := (List.cons.inj (List.cons.inj e).2).2
        rw [← ht]
        exact hk
      · obtain ⟨rest, hs⟩ := Split_marker_slice 'G' t0 (by decide)
        rw [dispatch_primary p _ _ rest hs] at hq
        have hk := (parseSDDL_kept ys1 _ q hforms hq).2.1 hno
        refine ⟨fun e => absurd (List.cons.inj e).1 (by decide), fun e => ?_,
          fun e => absurd (List.cons.inj e).1 (by decide),
          fun e => absurd (List.cons.inj e).1 (by decide)⟩
        have ht : t0 = t := (List.cons.inj (List.cons.inj e).2).2
        rw [← ht]
        exact hk
      · obtain ⟨rest, hs⟩ := Split_marker_slice 'D' t0 (by decide)
        rw [dispatch_dacl p _ _ rest hs] at hq
        cases hb : parseBody (t0.takeWhile (fun c => decide (c ≠ ':'))) with
        | error e1 => rw [hb] at hq; cases hq
        | ok r =>
          rw [hb] at hq
          have hk := (parseSDDL_kept ys1 _ q hforms hq).2.2.1 hno
          refine ⟨fun e => absurd (List.cons.inj e).1 (by decide),
            fun e => absurd (List.cons.inj e).1 (by decide), fun e => ?_,
            fun e => absurd (List.cons.inj e).1 (by decide)⟩
          have ht : t0 = t := (List.cons.inj (List.cons.inj e).2).2
          rw [← ht, hb, hk.1, hk.2]
      · obtain ⟨rest, hs⟩ := Split_marker_slice 'S' t0 (by decide)
        rw [dispatch_sacl p _ _ rest hs] at hq
        cases hb : parseBody (t0.takeWhile (fun c => decide (c ≠ ':'))) with
        | error e1 => rw [hb] at hq; cases hq
        | ok r =>
          rw [hb] at hq
          have hk := (parseSDDL_kept ys1 _ q hforms hq).2.2.2 hno
          refine ⟨fun e => absurd (List.cons.inj e).1 (by decide),
            fun e => absurd (List.cons.inj e).1 (by decide),
            fun e => absurd (List.cons.inj e).1 (by decide), fun e => ?_⟩
          have ht : t0 = t := (List.cons.inj (List.cons.inj e).2).2
          rw [← ht, hb, hk.1, hk.2]
    · cases hd : dispatch p (L :: ':' :: t0) with
      | error e1 => rw [hd] at hq; cases hq
      | ok p1 =>
        rw [hd] at hq
        exact ih hnd1.2 p1 q hq y hy1 t

/-- Every field of a successful decode comes from the slice of its own
section, from the text after `letter:` up to the next `:` of that slice. -/
theorem decode_fields (str : Str) (p : permissons) (h : decode str = .ok p) :
    ∀ y ∈ cuts str (findIndexResult str), ∀ t : Str,
      (y = 'O' :: ':' :: t →
        sidReplace (t.takeWhile (fun c => decide (c ≠ ':'))) = .ok p.Owner)
      ∧ (y = 'G' :: ':' :: t →
        sidReplace (t.takeWhile (fun c => decide (c ≠ ':'))) = .ok p.Primary)
      ∧ (y = 'D' :: ':' :: t →
        parseBody (t.takeWhile (fun c => decide (c ≠ ':'))) = .ok (p.DaclInher, p.Dacl))
      ∧ (y = 'S' :: ':' :: t →
        parseBody (t.takeWhile (fun c => decide (c ≠ ':'))) = .ok (p.SaclInger, p.Sacl)) := by
  rw [decode_eq] at h
  cases hs : sliceLoop str (findIndexResult str) with
  | error e => rw [hs] at h; cases h
  | ok slices =>
    rw [hs] at h
    obtain ⟨hc, hf⟩ := slices_start_with_markers str slices hs
    intro y hy t
    rw [← hc] at hy
    have := parseSDDL_fields (presentMarkers str) slices hf (presentMarkers_nodup str)
      permissons.zero p h y hy t
    refine ⟨fun e => ?_, fun e => ?_, this.2.2.1, this.2.2.2⟩
    · rw [sidReplace_ok, this.1 e]
    · rw [sidReplace_ok, this.2.1 e]

/-! ## The SID resolver and the ACE parser -/

/-- C2: for every token `sidReplace` returns, without ever failing, the value
of the reference definition of the specification: a token longer than 2
characters is resolved by exact match against `WellKnownSid`, a token of at
most 2 characters (the empty one included) against `SidAlias`, and a token
that is not a key comes back unchanged. -/
theorem sidReplace_refines_spec (token : Str) :
    sidReplace token = .ok (resolveSid_spec token) := by
  unfold sidReplace resolveSid_spec
  by_cases h : token.length > 2
  · simp only [h, if_true]
    cases sddlWellKnownSidsRep.lookup token <;> rfl
  · simp only [h, if_false]
    rw [elemAt_replacer_zero]
    simp only [h, if_false, resolve]

/-- C4: `splitBodyACL` fails exactly on the bodies that split on `;` into
fewer than six fields, and returns an entry exactly on those with six fields
or more, whatever the fields hold. -/
theorem splitBodyACL_fails_iff_short (a : Str) :
    ((∃ e, splitBodyACL a = .error e) ↔ (Split a ';').length < 6)
    ∧ ((∃ entry, splitBodyACL a = .ok entry) ↔ 6 ≤ (Split a ';').length) := by
  by_cases h : (Split a ';').length < 6
  · have he := splitBodyACL_of_short a h
    refine ⟨⟨fun _ => h, fun _ => ⟨_, he⟩⟩, ⟨?_, fun h6 => absurd h (by omega)⟩⟩
    rintro ⟨entry, hok⟩
    rw [he] at hok
    cases hok
  · obtain ⟨f0, f1, f2, f3, f4, f5, rest, hs⟩ := six_fields (Split a ';') (by omega)
    have hok := splitBodyACL_of_fields a f0 f1 f2 f3 f4 f5 rest hs
    refine ⟨⟨?_, fun hlt => absurd hlt h⟩, ⟨fun _ => by omega, fun _ => ⟨_, hok⟩⟩⟩
    rintro ⟨e, herr⟩
    rw [hok] at herr
    cases herr

/-- C8 (counterexample): in the ACE body `A;;FA;;;WD` the aceFlags field is
empty, of even length 0, yet the decoded aceFlags sequence is not empty: it is
the one-element sequence holding the empty string, so its length is not
`0 / 2`. -/
theorem aceFlags_empty_field_counterexample :
    6 ≤ (Split "A;;FA;;;WD".toList ';').length
    ∧ (Split "A;;FA;;;WD".toList ';')[1]? = some []
    ∧ ∃ e, splitBodyACL "A;;FA;;;WD".toList = .ok e
        ∧ e.AceFlags = [[]] ∧ e.AceFlags ≠ []
        ∧ e.AceFlags.length ≠ ([] : Str).length / 2 := by
  refine ⟨by decide, by decide, _, rfl, ?_, ?_, ?_⟩ <;> decide

/-- C8 (amended): on an ACE body with at least six fields, an aceFlags
(respectively rights) field of even, non-zero length decodes to exactly
field-length / 2 elements, the `i`-th being the resolution against `AceFlags`
(respectively `Rights`) of the `i`-th consecutive 2-character chunk; an empty
field decodes to the one-element sequence holding the empty string. -/
theorem aceFlags_rights_chunks (a f0 f1 f2 f3 f4 f5 : Str) (rest : List Str)
    (h : Split a ';' = f0 :: f1 :: f2 :: f3 :: f4 :: f5 :: rest) :
    ∃ e, splitBodyACL a = .ok e
      ∧ (f1.length % 2 = 0 → f1 ≠ [] →
          e.AceFlags.length = f1.length / 2
          ∧ ∀ i, i < f1.length / 2 →
              e.AceFlags[i]? = some (resolve sddlAceFlags (chunkAt f1 i)))
      ∧ (f1 = [] → e.AceFlags = [[]])
      ∧ (f2.length % 2 = 0 → f2 ≠ [] →
          e.Rights.length = f2.length / 2
          ∧ ∀ i, i < f2.length / 2 →
              e.Rights[i]? = some (resolve sddlRights (chunkAt f2 i)))
      ∧ (f2 = [] → e.Rights = [[]]) := by
  have key : ∀ (m : Table) (f : Str), f.length % 2 = 0 → f ≠ [] →
      (replacer m f).length = f.length / 2
      ∧ ∀ i, i < f.length / 2 → (replacer m f)[i]? = some (resolve m (chunkAt f i)) := by
    intro m f hev hne
    by_cases hl : 2 < f.length
    · rw [replacer_long m f hl]
      refine ⟨by simp [chunk2_length], fun i hi => ?_⟩
      simp [chunk2_getElem? f i hi]
    · have h2 : f.length = 2 := by
        have : f.length ≠ 0 := fun h0 => hne (List.length_eq_zero.mp h0)
        omega
      rw [replacer_short m f (by omega)]
      refine ⟨by simp [h2], fun i hi => ?_⟩
      have hi0 : i = 0 := by omega
      subst hi0
      simp [chunkAt, List.take_of_length_le (Nat.le_of_eq h2)]
  refine ⟨_, splitBodyACL_of_fields a f0 f1 f2 f3 f4 f5 rest h, ?_, ?_, ?_, ?_⟩
  · exact key sddlAceFlags f1
  · rintro rfl
    show replacer sddlAceFlags [] = [[]]
    decide
  · exact key sddlRights f2
  · rintro rfl
    show replacer sddlRights [] = [[]]
    decide

theorem aceFlags_rights_chunks_witness :
    ∃ e, splitBodyACL "A;CIOI;FR;;;AU".toList = .ok e
      ∧ e.AceFlags.length = 2
      ∧ e.AceFlags[1]? = some "OBJECT INHERIT".toList
      ∧ e.Rights = ["FILE_GENERIC_READ".toList] := by
  obtain ⟨e, he, hf, _, hr, _⟩ :=
    aceFlags_rights_chunks "A;CIOI;FR;;;AU".toList "A".toList "CIOI".toList "FR".toList
      [] [] "AU".toList [] (by decide)
  have hf' := hf (by decide) (by decide)
  have hr' := hr (by decide) (by decide)
  refine ⟨e, he, hf'.1, ?_, ?_⟩
  · rw [hf'.2 1 (by decide)]
    decide
  · have h0 := hr'.2 0 (by decide)
    have hlen : e.Rights.length = 1 := hr'.1
    match hR : e.Rights, hlen, h0 with
    | [x], _, h0 =>
      simp only [List.getElem?_cons_zero, Option.some.injEq] at h0
      rw [h0]
      decide

/-- C9 (counterexample): the first field of `OAX;;;;;` is not a key of
`AceType`, so whole-field lookup would give `OAX`, but the decoded aceType
is `OBJECT ACCESS ALLOWED`: the field was cut to its first 2-character chunk. -/
theorem aceType_long_field_counterexample :
    Split "OAX;;;;;".toList ';' = ["OAX".toList, [], [], [], [], []]
    ∧ sddlAceType.lookup "OAX".toList = none
    ∧ ∃ e, splitBodyACL "OAX;;;;;".toList = .ok e
        ∧ e.AceType = "OBJECT ACCESS ALLOWED".toList
        ∧ e.AceType ≠ "OAX".toList := by
  refine ⟨by decide, by decide, _, rfl, ?_, ?_⟩ <;> decide

/-- C9 (amended): on an ACE body with at least six fields, when the first
field has at most 2 characters the decoded aceType is the whole-field lookup
in `AceType` (the table value if the field is a key, else the field
unchanged); when it is longer, the aceType is that lookup applied to the
first 2 characters of the field. -/
theorem aceType_lookup (a f0 f1 f2 f3 f4 f5 : Str) (rest : List Str)
    (h : Split a ';' = f0 :: f1 :: f2 :: f3 :: f4 :: f5 :: rest) :
    ∃ e, splitBodyACL a = .ok e
      ∧ (f0.length ≤ 2 → e.AceType = (sddlAceType.lookup f0).getD f0)
      ∧ (2 < f0.length →
          e.AceType = (sddlAceType.lookup (f0.take 2)).getD (f0.take 2)) := by
  have hres : ∀ v : Str, resolve sddlAceType v = (sddlAceType.lookup v).getD v := by
    intro v
    unfold resolve
    cases sddlAceType.lookup v <;> rfl
  refine ⟨_, splitBodyACL_of_fields a f0 f1 f2 f3 f4 f5 rest h, ?_, ?_⟩
  · intro hle
    have : ¬ f0.length > 2 := by omega
    simp only [this, if_false, hres]
  · intro hlt
    simp only [gt_iff_lt, hlt, if_true, hres]

theorem aceType_lookup_witness :
    ∃ e, splitBodyACL "D;;GA;;;BG".toList = .ok e
      ∧ e.AceType = "ACCESS DENIED".toList := by
  obtain ⟨e, he, hs, _⟩ :=
    aceType_lookup "D;;GA;;;BG".toList "D".toList [] "GA".toList [] [] "BG".toList []
      (by decide)
  refine ⟨e, he, ?_⟩
  rw [hs (by decide)]
  decide

/-- C10: a 2-character code that is not a key of `Rights` decodes, as the
rights field of an ACE, to the one-element sequence holding the code itself;
likewise for `AceFlags` and the aceFlags field; and `sidReplace` returns a
2-character code that is not a key of `SidAlias` unchanged.  None of these is
an empty value or an error. -/
theorem unknown_code_passthrough (c : Str) (hc : c.length = 2) :
    (sddlRights.lookup c = none →
      ∀ a f0 f1 f3 f4 f5 rest, Split a ';' = f0 :: f1 :: c :: f3 :: f4 :: f5 :: rest →
        ∃ e, splitBodyACL a = .ok e ∧ e.Rights = [c])
    ∧ (sddlAceFlags.lookup c = none →
      ∀ a f0 f2 f3 f4 f5 rest, Split a ';' = f0 :: c :: f2 :: f3 :: f4 :: f5 :: rest →
        ∃ e, splitBodyACL a = .ok e ∧ e.AceFlags = [c])
    ∧ (sddlSidsRep.lookup c = none → sidReplace c = .ok c) := by
  refine ⟨?_, ?_, ?_⟩
  · intro hn a f0 f1 f3 f4 f5 rest hs
    refine ⟨_, splitBodyACL_of_fields a f0 f1 c f3 f4 f5 rest hs, ?_⟩
    show replacer sddlRights c = [c]
    rw [replacer_short _ c (by omega), resolve_of_none _ c hn]
  · intro hn a f0 f2 f3 f4 f5 rest hs
    refine ⟨_, splitBodyACL_of_fields a f0 c f2 f3 f4 f5 rest hs, ?_⟩
    show replacer sddlAceFlags c = [c]
    rw [replacer_short _ c (by omega), resolve_of_none _ c hn]
  · intro hn
    rw [sidReplace_ok]
    unfold resolveSid_spec
    have : ¬ c.length > 2 := by omega
    simp only [this, if_false, hn]

theorem unknown_code_passthrough_witness :
    (∃ e, splitBodyACL "A;ZZ;ZZ;;;ZZ".toList = .ok e ∧ e.Rights = ["ZZ".toList])
    ∧ (∃ e, splitBodyACL "A;ZZ;ZZ;;;ZZ".toList = .ok e ∧ e.AceFlags = ["ZZ".toList])
    ∧ sidReplace "ZZ".toList = .ok "ZZ".toList :=
  ⟨(unknown_code_passthrough "ZZ".toList (by decide)).1 (by decide)
      "A;ZZ;ZZ;;;ZZ".toList "A".toList "ZZ".toList [] [] "ZZ".toList [] (by decide),
   (unknown_code_passthrough "ZZ".toList (by decide)).2.1 (by decide)
      "A;ZZ;ZZ;;;ZZ".toList "A".toList "ZZ".toList [] [] "ZZ".toList [] (by decide),
   (unknown_code_passthrough "ZZ".toList (by decide)).2.2 (by decide)⟩

/-! ## The ACL body parser and the whole decoder -/

/-- C1: for every choice of present sections among O, G, D, S, laid out in
that order with `:`-free bodies, decoding the text yields the owner and the
primary group resolved by `sidReplace` and the DACL and SACL parts parsed by
`parseBody`, each from its own section body, the fields of absent sections
staying empty; the decode fails only with the failure of `parseBody` on a
present D or S body.  `O:BAG:SYD:(A;;FA;;;WD)` and
`O:S-1-5-21-123-456-789-1001` decode as the specification lists them. -/
theorem decode_well_separated_sections (o g d s : Option Str)
    (ho : colonFree o) (hg : colonFree g) (hd : colonFree d) (hs : colonFree s) :
    decode (sddlOf o g d s) = decodeSections_spec o g d s
    ∧ (∀ e, decode (sddlOf o g d s) = .error e →
        (∃ body, d = some body ∧ parseBody body = .error e)
        ∨ (∃ body, s = some body ∧ parseBody body = .error e))
    ∧ (∃ p entry, decode "O:BAG:SYD:(A;;FA;;;WD)".toList = .ok p
        ∧ p.Owner = "Built-in administrators".toList
        ∧ p.Primary = "Local system".toList
        ∧ p.Dacl = [entry]
        ∧ entry.AceType = "ACCESS ALLOWED".toList
        ∧ entry.Rights = ["FILE_ALL_ACCESS".toList]
        ∧ entry.AccountSid = "Everyone".toList
        ∧ entry.ObjectGuid = [] ∧ entry.InheritObjectGuid = [])
    ∧ (∃ p, decode "O:S-1-5-21-123-456-789-1001".toList = .ok p
        ∧ p.Owner = "S-1-5-21-123-456-789-1001".toList) := by
  have hmain := decode_sddlOf o g d s ho hg hd hs
  refine ⟨hmain, ?_, ?_, ?_⟩
  · intro e he
    rw [hmain] at he
    exact decodeSections_spec_error o g d s e he
  · exact ⟨_, _, rfl, rfl, rfl, rfl, rfl, rfl, rfl, rfl, rfl⟩
  · exact ⟨_, rfl, rfl⟩

theorem decode_well_separated_sections_witness :
    decode (sddlOf (some "BA".toList) (some "SY".toList) (some "(A;;FA;;;WD)".toList) none)
      = decodeSections_spec (some "BA".toList) (some "SY".toList)
          (some "(A;;FA;;;WD)".toList) none :=
  (decode_well_separated_sections (some "BA".toList) (some "SY".toList)
    (some "(A;;FA;;;WD)".toList) none
    (show ':' ∉ "BA".toList by decide) (show ':' ∉ "SY".toList by decide)
    (show ':' ∉ "(A;;FA;;;WD)".toList by decide) trivial).1

/-- C3: for every ACE body `a` that holds neither `(` nor `:` and splits on `;`
into fewer than six fields, decoding `D:(a)` fails as a whole, with an
index-out-of-range fault and no permission set, partial or not; `D:(A;;RP)`,
of three fields, is such an input. -/
theorem decode_short_ace_fails (a : Str) (h1 : '(' ∉ a) (h2 : ':' ∉ a)
    (h3 : (Split a ';').length < 6) :
    decode ("D:(".toList ++ a ++ ")".toList) = .error .indexOutOfRange
    ∧ (∀ p, decode ("D:(".toList ++ a ++ ")".toList) ≠ .ok p)
    ∧ decode "D:(A;;RP)".toList = .error .indexOutOfRange := by
  have hcf : colonFree (some ('(' :: (a ++ [')']))) := by
    show ':' ∉ '(' :: (a ++ [')'])
    simp [h2]
  have hin : "D:(".toList ++ a ++ ")".toList
      = sddlOf none none (some ('(' :: (a ++ [')']))) none := by
    simp [sddlOf, piece]
  have hfail : decode ("D:(".toList ++ a ++ ")".toList) = .error .indexOutOfRange := by
    rw [hin, decode_sddlOf none none _ none trivial trivial hcf trivial]
    simp only [decodeSections_spec, sidOf, aclOf, parseBody_short_ace a h1 h3]
    rfl
  refine ⟨hfail, ?_, rfl⟩
  intro p hp
  rw [hfail] at hp
  cases hp

theorem decode_short_ace_fails_witness :
    decode ("D:(".toList ++ "A;;RP".toList ++ ")".toList) = .error .indexOutOfRange :=
  (decode_short_ace_fails "A;;RP".toList (by decide) (by decide) (by decide)).1

/-- C5: for a non-empty list of ACE bodies, none holding `(` and each
splitting on `;` into at least six fields, `parseBody` of the text
`(a1)...(an)` returns no inheritance flag and exactly `n` entries, the `i`-th
being the result of `splitBodyACL` on `ai`: one entry per parenthesised ACE,
in input order, a single trailing `)` being stripped from each segment. -/
theorem parseBody_ace_sequence (aces : List Str) (hne : aces ≠ [])
    (hp : ∀ a ∈ aces, '(' ∉ a) (h6 : ∀ a ∈ aces, 6 ≤ (Split a ';').length) :
    ∃ es, parseBody (aclText aces) = .ok ([], es)
      ∧ es.length = aces.length
      ∧ List.Forall₂ (fun a e => splitBodyACL a = .ok e) aces es := by
  obtain ⟨es, hes⟩ := entries_exist aces h6
  refine ⟨es, ?_, hes.length_eq.symm, hes⟩
  match aces, hne with
  | a :: rest, _ =>
    have hb := splitBody_aclText (a :: rest) es hp hes
    simp only [aclText] at hb ⊢
    rw [parseBody_of_paren, hb]
    rfl

theorem parseBody_ace_sequence_witness :
    ∃ es, parseBody (aclText ["A;;FA;;;WD".toList, "D;CI;GA;;;BG)".toList]) = .ok ([], es)
      ∧ es.length = 2
      ∧ List.Forall₂ (fun a e => splitBodyACL a = .ok e)
          ["A;;FA;;;WD".toList, "D;CI;GA;;;BG)".toList] es :=
  parseBody_ace_sequence ["A;;FA;;;WD".toList, "D;CI;GA;;;BG)".toList] (by decide)
    (by decide) (by decide)

/-- C6 (the code at the failing input): the ACL body `AI(A;;FA;;;WD)` has the
2-character prefix `AI`, a key of `InheritanceFlags`, and `parseBody` returns
no inheritance flag at all for it, where the claim has the single flag
`SDDL_AUTO_INHERITED`; the unknown 2-character prefix `XX` is dropped in the
same way instead of being passed through. -/
theorem parseBody_two_char_prefix_dropped :
    sddlInheritanceFlags.lookup "AI".toList = some "SDDL_AUTO_INHERITED".toList
    ∧ (∃ es, parseBody "AI(A;;FA;;;WD)".toList = .ok ([], es))
    ∧ (∃ es, parseBody "XX(A;;FA;;;WD)".toList = .ok ([], es)) :=
  ⟨by decide, ⟨_, rfl⟩, ⟨_, rfl⟩⟩

/-- C7 (the code at the failing input): decoding `D:PAI(D;;GA;;;BG)` yields
the single inheritance flag `PA`, the unresolved first 2-character chunk of the
prefix `PAI`, and not the two flags `DDL_PROTECTED`, `SDDL_AUTO_INHERITED`;
the DACL entry is the one the claim lists. -/
theorem decode_PAI_flags :
    ∃ p entry, decode "D:PAI(D;;GA;;;BG)".toList = .ok p
      ∧ p.DaclInher = ["PA".toList]
      ∧ p.DaclInher ≠ ["DDL_PROTECTED".toList, "SDDL_AUTO_INHERITED".toList]
      ∧ p.Dacl = [entry]
      ∧ entry.AceType = "ACCESS DENIED".toList
      ∧ entry.Rights = ["GENERIC_ALL".toList]
      ∧ entry.AccountSid = "Built-in guests".toList :=
  ⟨_, _, rfl, rfl, by decide, rfl, rfl, rfl, rfl⟩

/-! ## Further properties of the ACE parser and of `replacer` -/

/-- C11: on an ACE body that splits on `;` into at least six fields,
`splitBodyACL` returns an entry whose objectGuid and inheritObjectGuid are the
fourth and fifth fields verbatim and whose accountSid is `sidReplace` of the
sixth field; the fields after the sixth have no influence: every ACE body with
the same first six fields decodes to the same entry. -/
theorem splitBodyACL_guids_sid_extra (a f0 f1 f2 f3 f4 f5 : Str) (rest : List Str)
    (h : Split a ';' = f0 :: f1 :: f2 :: f3 :: f4 :: f5 :: rest) :
    ∃ e, splitBodyACL a = .ok e
      ∧ e.ObjectGuid = f3 ∧ e.InheritObjectGuid = f4
      ∧ sidReplace f5 = .ok e.AccountSid
      ∧ ∀ (b : Str) (rest' : List Str),
          Split b ';' = f0 :: f1 :: f2 :: f3 :: f4 :: f5 :: rest' → splitBodyACL b = .ok e :=
  ⟨_, splitBodyACL_of_fields a f0 f1 f2 f3 f4 f5 rest h, rfl, rfl, sidReplace_ok f5,
    fun b rest' hb => splitBodyACL_of_fields b f0 f1 f2 f3 f4 f5 rest' hb⟩

theorem splitBodyACL_guids_sid_extra_witness :
    ∃ e, splitBodyACL "A;;FA;g1;g2;WD;more;fields".toList = .ok e
      ∧ e.ObjectGuid = "g1".toList ∧ e.InheritObjectGuid = "g2".toList
      ∧ e.AccountSid = "Everyone".toList
      ∧ splitBodyACL "A;;FA;g1;g2;WD".toList = .ok e := by
  obtain ⟨e, he, h3, h4, h5, hsame⟩ :=
    splitBodyACL_guids_sid_extra "A;;FA;g1;g2;WD;more;fields".toList "A".toList []
      "FA".toList "g1".toList "g2".toList "WD".toList ["more".toList, "fields".toList]
      (by decide)
  refine ⟨e, he, h3, h4, ?_, hsame "A;;FA;g1;g2;WD".toList [] (by decide)⟩
  have h : sidReplace "WD".toList = .ok "Everyone".toList := rfl
  rw [h] at h5
  exact (Except.ok.inj h5).symm

/-- C13 (counterexample): in the ACE body `A;X;X;;;WD` the aceFlags and rights
fields have the odd length 1, and each decodes to one element, the field
itself, not to no element: the lone character is not dropped. -/
theorem one_char_field_counterexample :
    Split "A;X;X;;;WD".toList ';' = ["A".toList, "X".toList, "X".toList, [], [], "WD".toList]
    ∧ ∃ e, splitBodyACL "A;X;X;;;WD".toList = .ok e
        ∧ e.AceFlags = ["X".toList] ∧ e.Rights = ["X".toList]
        ∧ e.AceFlags.length ≠ ("X".toList.length - 1) / 2 := by
  refine ⟨by decide, _, rfl, ?_, ?_, ?_⟩ <;> decide

/-- C13 (amended): on an ACE body with at least six fields, an aceFlags
(respectively rights) field of odd length 3 or more decodes to the resolved
consecutive 2-character chunks of the field without its last character, so to
(length - 1) / 2 elements, the trailing lone character being dropped; a
1-character field decodes to one element, the field itself looked up whole. -/
theorem odd_field_chunks (a f0 f1 f2 f3 f4 f5 : Str) (rest : List Str)
    (h : Split a ';' = f0 :: f1 :: f2 :: f3 :: f4 :: f5 :: rest) :
    ∃ e, splitBodyACL a = .ok e
      ∧ (f1.length % 2 = 1 → 3 ≤ f1.length →
          e.AceFlags.length = (f1.length - 1) / 2
          ∧ ∀ i, i < (f1.length - 1) / 2 →
              e.AceFlags[i]? = some (resolve sddlAceFlags (chunkAt f1.dropLast i)))
      ∧ (f1.length = 1 → e.AceFlags = [resolve sddlAceFlags f1])
      ∧ (f2.length % 2 = 1 → 3 ≤ f2.length →
          e.Rights.length = (f2.length - 1) / 2
          ∧ ∀ i, i < (f2.length - 1) / 2 →
              e.Rights[i]? = some (resolve sddlRights (chunkAt f2.dropLast i)))
      ∧ (f2.length = 1 → e.Rights = [resolve sddlRights f2]) := by
  have key : ∀ (m : Table) (f : Str), f.length % 2 = 1 → 3 ≤ f.length →
      (replacer m f).length = (f.length - 1) / 2
      ∧ ∀ i, i < (f.length - 1) / 2 →
          (replacer m f)[i]? = some (resolve m (chunkAt f.dropLast i)) := by
    intro m f hodd h3
    rw [replacer_long m f (by omega)]
    refine ⟨by simp only [List.length_map, chunk2_length]; omega, fun i hi => ?_⟩
    have hi' : i < f.length / 2 := by omega
    have hc : chunkAt f.dropLast i = chunkAt f i := by
      unfold chunkAt
      rw [List.dropLast_eq_take, List.drop_take, List.take_take]
      congr 1
      omega
    simp [chunk2_getElem? f i hi', hc]
  refine ⟨_, splitBodyACL_of_fields a f0 f1 f2 f3 f4 f5 rest h, key sddlAceFlags f1, ?_,
    key sddlRights f2, ?_⟩
  · intro h1
    exact replacer_short _ f1 (by omega)
  · intro h1
    exact replacer_short _ f2 (by omega)

theorem odd_field_chunks_witness :
    ∃ e, splitBodyACL "A;CIOIX;FRGAY;;;AU".toList = .ok e
      ∧ e.AceFlags.length = 2 ∧ e.Rights.length = 2
      ∧ e.Rights[1]? = some "GENERIC_ALL".toList := by
  obtain ⟨e, he, hf, _, hr, _⟩ :=
    odd_field_chunks "A;CIOIX;FRGAY;;;AU".toList "A".toList "CIOIX".toList "FRGAY".toList
      [] [] "AU".toList [] (by decide)
  have hf' := hf (by decide) (by decide)
  have hr' := hr (by decide) (by decide)
  refine ⟨e, he, hf'.1, hr'.1, ?_⟩
  rw [hr'.2 1 (by decide)]
  decide

/-- C16: for every lookup table `m` and every string `s`, `replacer m s` is
never empty; it is the one-element list of the lookup of `s` itself when `s`
has at most 2 characters (the empty and the 1-character string included), and
otherwise the lookups of the `len(s) / 2` consecutive 2-character chunks of
`s`, in order, a trailing odd character being dropped; a lookup gives the
table value of a key and the looked-up string itself otherwise.  Hence the
index expression `[0]` on the result never fails, and on the tables of the
source the empty string gives the list holding the empty string. -/
theorem replacer_spec (m : Table) (s : Str) :
    replacer m s ≠ []
    ∧ (s.length ≤ 2 → replacer m s = [(m.lookup s).getD s])
    ∧ (2 < s.length →
        (replacer m s).length = s.length / 2
        ∧ ∀ i, i < s.length / 2 →
            (replacer m s)[i]? = some ((m.lookup (chunkAt s i)).getD (chunkAt s i)))
    ∧ (∃ x, elemAt (replacer m s) 0 = .ok x)
    ∧ (∀ t ∈ [sddlRights, sddlInheritanceFlags, sddlAceType, sddlAceFlags, sddlSidsRep,
          sddlWellKnownSidsRep], replacer t [] = [[]]) := by
  have hres : ∀ v : Str, resolve m v = (m.lookup v).getD v := by
    intro v
    unfold resolve
    cases m.lookup v <;> rfl
  refine ⟨?_, ?_, ?_, ⟨_, elemAt_replacer_zero m s⟩, by decide⟩
  · intro hnil
    have h0 := elemAt_replacer_zero m s
    rw [hnil] at h0
    simp [elemAt] at h0
  · intro hle
    rw [replacer_short m s hle, hres]
  · intro hlt
    rw [replacer_long m s hlt]
    refine ⟨by simp [chunk2_length], fun i hi => ?_⟩
    simp [chunk2_getElem? s i hi, hres]

theorem replacer_spec_witness :
    replacer sddlAceFlags "CIOIX".toList
        = ["CONTAINER INHERIT".toList, "OBJECT INHERIT".toList]
    ∧ replacer sddlAceType "A".toList = ["ACCESS ALLOWED".toList] := by
  obtain ⟨_, hshort, _, _, _⟩ := replacer_spec sddlAceType "A".toList
  obtain ⟨_, _, hlong, _, _⟩ := replacer_spec sddlAceFlags "CIOIX".toList
  refine ⟨by decide, ?_⟩
  rw [hshort (by decide)]
  decide

/-- C15: decoding `D:(A;CIOI;FR;;;AU)` succeeds with exactly one DACL entry,
of aceFlags `CONTAINER INHERIT`, `OBJECT INHERIT`, rights `FILE_GENERIC_READ`
and accountSid `Authenticated users`; owner, primary, SACL and both
inheritance-flag lists stay empty. -/
theorem decode_CIOI_example :
    ∃ p entry, decode "D:(A;CIOI;FR;;;AU)".toList = .ok p
      ∧ p.Dacl = [entry]
      ∧ entry.AceFlags = ["CONTAINER INHERIT".toList, "OBJECT INHERIT".toList]
      ∧ entry.Rights = ["FILE_GENERIC_READ".toList]
      ∧ entry.AccountSid = "Authenticated users".toList
      ∧ p.Owner = [] ∧ p.Primary = [] ∧ p.Sacl = []
      ∧ p.DaclInher = [] ∧ p.SaclInger = [] :=
  ⟨_, _, rfl, rfl, rfl, rfl, rfl, rfl, rfl, rfl, rfl, rfl⟩

/-! ## Inheritance flags and ACL bodies without an ACE -/

/-- C17: for an ACL body whose first `(` is at index `k ≥ 1` (the text `pre`
before it has `k` characters) and whose ACE sequence parses, the
inheritance-flag list returned by `parseBody` is empty when `k ≤ 2`, and when
`k ≥ 3` it has `k / 2` elements, the `i`-th being the `InheritanceFlags` value
of the `i`-th consecutive 2-character chunk of the prefix when the chunk is a
key and the chunk itself otherwise. -/
theorem parseBody_prefix_flags (pre rest : Str) (es : List entryACLInternal)
    (hk : 1 ≤ pre.length) (hp : '(' ∉ pre) (hes : splitBody ('(' :: rest) = .ok es) :
    Index (pre ++ '(' :: rest) ['('] = (pre.length : Int)
    ∧ ∃ flags, parseBody (pre ++ '(' :: rest) = .ok (flags, es)
        ∧ (pre.length ≤ 2 → flags = [])
        ∧ (3 ≤ pre.length →
            flags.length = pre.length / 2
            ∧ ∀ i, i < pre.length / 2 →
                flags[i]? = some ((sddlInheritanceFlags.lookup (chunkAt pre i)).getD
                  (chunkAt pre i))) := by
  have hne : pre ≠ [] := by
    intro h
    rw [h] at hk
    simp at hk
  have hres : ∀ v : Str,
      resolve sddlInheritanceFlags v = (sddlInheritanceFlags.lookup v).getD v := by
    intro v
    unfold resolve
    cases sddlInheritanceFlags.lookup v <;> rfl
  refine ⟨?_, inheritFlagsOf pre, ?_, ?_, ?_⟩
  · have := indexFrom_single_append '(' rest pre 0 hp
    simpa [Index] using this
  · rw [parseBody_of_flag_text pre rest hne hp, hes]
    rfl
  · intro hle
    have : ¬ pre.length > 2 := by omega
    simp [inheritFlagsOf, this]
  · intro h3
    have : pre.length > 2 := by omega
    simp only [inheritFlagsOf, this, if_true]
    refine ⟨by simp [chunk2_length], fun i hi => ?_⟩
    simp [chunk2_getElem? pre i hi, hres]

theorem parseBody_prefix_flags_witness :
    (∃ es, parseBody "AI(A;;FA;;;WD)".toList = .ok ([], es))
    ∧ (∃ flags es, parseBody "AIARX(A;;FA;;;WD)".toList = .ok (flags, es)
        ∧ flags.length = 2
        ∧ flags[1]? = some "SDDL_AUTO_INHERIT_REQ".toList) := by
  obtain ⟨es, hes⟩ : ∃ es, splitBody "(A;;FA;;;WD)".toList = .ok es := ⟨_, rfl⟩
  obtain ⟨_, f1, h1, hshort, _⟩ :=
    parseBody_prefix_flags "AI".toList "A;;FA;;;WD)".toList es (by decide) (by decide) hes
  obtain ⟨_, f2, h2, _, hlong⟩ :=
    parseBody_prefix_flags "AIARX".toList "A;;FA;;;WD)".toList es (by decide) (by decide) hes
  have e1 := hshort (by decide)
  subst e1
  have hl := hlong (by decide)
  refine ⟨⟨es, h1⟩, f2, es, h2, hl.1, ?_⟩
  rw [hl.2 1 (by decide)]
  decide

/-- C18: on every input on which decode succeeds, neither daclInheritFlags nor
saclInheritFlags holds the label `DDL_PROTECTED`: `parseBody` only ever
resolves 2-character chunks of the prefix, so the 1-character key `P` of the
`InheritanceFlags` table is never looked up. -/
theorem decode_never_protected (str : Str) (p : permissons) (h : decode str = .ok p) :
    "DDL_PROTECTED".toList ∉ p.DaclInher ∧ "DDL_PROTECTED".toList ∉ p.SaclInger := by
  rw [decode_eq] at h
  cases hs : sliceLoop str (findIndexResult str) with
  | error e => rw [hs] at h; cases h
  | ok slices =>
    rw [hs] at h
    exact parseSDDL_flags_not_protected slices permissons.zero p h (by simp [permissons.zero])
      (by simp [permissons.zero])

theorem decode_never_protected_witness :
    "DDL_PROTECTED".toList ∉ ["PA".toList] ∧ "DDL_PROTECTED".toList ∉ ([] : List Str) :=
  decode_never_protected "D:PAI(D;;GA;;;BG)".toList
    { Owner := [], Primary := [],
      Dacl := [{ AccountSid := "Built-in guests".toList, AceType := "ACCESS DENIED".toList,
                 AceFlags := [[]], Rights := ["GENERIC_ALL".toList],
                 ObjectGuid := [], InheritObjectGuid := [] }],
      DaclInher := ["PA".toList], Sacl := [], SaclInger := [] } rfl

/-- C19: `parseBody` fails, with a slice bound out of range, on every ACL body
that holds no `(`, the empty body included; hence decode fails whenever one of
the slices handed to the dispatcher is a D or S section with such a body, in
particular on every text of well-separated sections whose D or S body holds
no `(`, such as `D:`, `O:BAG:SYD:` and `D:PAI`. -/
theorem parseBody_without_paren_fails (body : Str) (hb : '(' ∉ body) :
    parseBody body = .error .sliceBounds
    ∧ (∀ (str : Str) (slices : List Str) (y : Str) (L : Char) (rest : List Str),
        sliceLoop str (findIndexResult str) = .ok slices → y ∈ slices →
        (L = 'D' ∨ L = 'S') → Split y ':' = [L] :: body :: rest →
        ∃ e, decode str = .error e)
    ∧ (∀ o g s : Option Str, colonFree o → colonFree g → colonFree s → ':' ∉ body →
        decode (sddlOf o g (some body) s) = .error .sliceBounds)
    ∧ (∀ o g d : Option Str, colonFree o → colonFree g → colonFree d → ':' ∉ body →
        ∃ e, decode (sddlOf o g d (some body)) = .error e)
    ∧ decode "D:".toList = .error .sliceBounds
    ∧ decode "O:BAG:SYD:".toList = .error .sliceBounds
    ∧ decode "D:PAI".toList = .error .sliceBounds := by
  refine ⟨parseBody_no_paren body hb, ?_, ?_, ?_, rfl, rfl, rfl⟩
  · intro str slices y L rest hs hy hL hsp
    rw [decode_eq, hs]
    exact parseSDDL_fails_of_bad_slice slices permissons.zero y L body rest hy hL hsp hb
  · intro o g s ho hg hs hc
    rw [decode_sddlOf o g (some body) s ho hg hc hs]
    have ho' : ∃ x, sidOf o = .ok x := by
      cases o
      · exact ⟨_, rfl⟩
      · exact ⟨_, sidReplace_ok _⟩
    have hg' : ∃ x, sidOf g = .ok x := by
      cases g
      · exact ⟨_, rfl⟩
      · exact ⟨_, sidReplace_ok _⟩
    obtain ⟨x, hx⟩ := ho'
    obtain ⟨y, hy⟩ := hg'
    simp only [decodeSections_spec, hx, hy, aclOf, parseBody_no_paren body hb]
    rfl
  · intro o g d ho hg hd hc
    rw [decode_sddlOf o g d (some body) ho hg hd hc]
    have ho' : ∃ x, sidOf o = .ok x := by
      cases o
      · exact ⟨_, rfl⟩
      · exact ⟨_, sidReplace_ok _⟩
    have hg' : ∃ x, sidOf g = .ok x := by
      cases g
      · exact ⟨_, rfl⟩
      · exact ⟨_, sidReplace_ok _⟩
    obtain ⟨x, hx⟩ := ho'
    obtain ⟨y, hy⟩ := hg'
    simp only [decodeSections_spec, hx, hy]
    cases aclOf d with
    | error e => exact ⟨e, rfl⟩
    | ok r =>
      simp only [aclOf, parseBody_no_paren body hb]
      exact ⟨_, rfl⟩

theorem parseBody_without_paren_fails_witness :
    parseBody "PAI".toList = .error .sliceBounds :=
  (parseBody_without_paren_fails "PAI".toList (by decide)).1

/-! ## Section slicing on an arbitrary text -/

/-- C12 (counterexample): in `O:A:B` the only marker is `O:`, the text between
it and the end of the input is `A:B`, and `sidReplace` leaves `A:B` as it is;
yet the body handed to the dispatcher is `A` and the decoded owner is `A`: the
slice is split on every `:`, not on its first `:` only. -/
theorem owner_body_colon_counterexample :
    markerIndices "O:A:B".toList = [0]
    ∧ (markerIndices "O:A:B".toList).Pairwise (· < ·)
    ∧ cuts "O:A:B".toList (findIndexResult "O:A:B".toList) = ["O:A:B".toList]
    ∧ elemAt (Split "O:A:B".toList ':') 1 = .ok "A".toList
    ∧ sidReplace "A:B".toList = .ok "A:B".toList
    ∧ ∃ p, decode "O:A:B".toList = .ok p ∧ p.Owner = "A".toList
        ∧ p.Owner ≠ "A:B".toList := by
  refine ⟨by decide, by decide, by decide, rfl, rfl, _, rfl, rfl, by decide⟩

/-- C12 (amended): on every input in which the first occurrences of the
present markers are at increasing indices, the slicing step succeeds; the
boundaries are the indices of the present markers followed by the length of
the input, the slice of each present section runs from its marker up to the
next boundary, and the body handed to the dispatcher is the text of the slice
after `letter:` up to the next `:` of the slice or its end.  A successful
decode takes every field from that body of its own section: the owner and the
primary group are `sidReplace` of it, the DACL and SACL parts are `parseBody`
of it (input `O:A:B` has the owner body `A`, input `G:A:B` the primary body
`A`). -/
theorem sections_cut_at_markers (str : Str) (hinc : (markerIndices str).Pairwise (· < ·)) :
    findIndexResult str = (presentMarkers str).map (Index str) ++ [(str.length : Int)]
    ∧ sliceLoop str (findIndexResult str) = .ok (cuts str (findIndexResult str))
    ∧ List.Forall₂
        (fun m y => ∃ L t, m = [L, ':'] ∧ y = L :: ':' :: t
          ∧ elemAt (Split y ':') 0 = .ok [L]
          ∧ elemAt (Split y ':') 1 = .ok (t.takeWhile (fun c => decide (c ≠ ':'))))
        (presentMarkers str) (cuts str (findIndexResult str))
    ∧ (∀ p, Index str "O:".toList ≠ -1 → decode str = .ok p →
        ∃ t ys, cuts str (findIndexResult str) = ('O' :: ':' :: t) :: ys
          ∧ sidReplace (t.takeWhile (fun c => decide (c ≠ ':'))) = .ok p.Owner)
    ∧ (∀ p, decode str = .ok p → ∀ y ∈ cuts str (findIndexResult str), ∀ t : Str,
        (y = 'O' :: ':' :: t →
          sidReplace (t.takeWhile (fun c => decide (c ≠ ':'))) = .ok p.Owner)
        ∧ (y = 'G' :: ':' :: t →
          sidReplace (t.takeWhile (fun c => decide (c ≠ ':'))) = .ok p.Primary)
        ∧ (y = 'D' :: ':' :: t →
          parseBody (t.takeWhile (fun c => decide (c ≠ ':')))
            = .ok (p.DaclInher, p.Dacl))
        ∧ (y = 'S' :: ':' :: t →
          parseBody (t.takeWhile (fun c => decide (c ≠ ':')))
            = .ok (p.SaclInger, p.Sacl)))
    ∧ (∃ p, decode "G:A:B".toList = .ok p ∧ p.Primary = "A".toList)
    ∧ (∃ p, decode "O:A:BG:C:ED:(A;;FA;;;WD):zzS:(AU;SA;FA;;;WD):q".toList = .ok p
        ∧ p.Owner = "A".toList ∧ p.Primary = "C".toList
        ∧ parseBody "(A;;FA;;;WD)".toList = .ok (p.DaclInher, p.Dacl)
        ∧ parseBody "(AU;SA;FA;;;WD)".toList = .ok (p.SaclInger, p.Sacl)) := by
  have hs := sliceLoop_of_increasing str hinc
  refine ⟨findIndexResult_eq str, hs, ?_, ?_, fun p hp => decode_fields str p hp,
    ⟨_, rfl, rfl⟩, ⟨_, rfl, rfl, rfl, rfl, rfl⟩⟩
  · have hf := (slices_start_with_markers str _ hs).2
    refine hf.imp ?_
    rintro m y ⟨L, t, hL, hm, hy⟩
    have hLc : L ≠ ':' := by
      intro e
      subst e
      simp at hL
    obtain ⟨rest, hsp⟩ := Split_marker_slice L t hLc
    refine ⟨L, t, hm, hy, ?_, ?_⟩
    · rw [hy, hsp, elemAt_cons_zero]
    · rw [hy, hsp, elemAt_cons_succ, elemAt_cons_zero]
  · intro p hO hp
    obtain ⟨t, ys, hc, hown⟩ := decode_owner str p hO hp
    exact ⟨t, ys, hc, by rw [sidReplace_ok, hown]⟩

theorem sections_cut_at_markers_witness :
    ∃ p, decode "O:A:BG:C:ED:(A;;FA;;;WD):zzS:(AU;SA;FA;;;WD):q".toList = .ok p
      ∧ sidReplace "A".toList = .ok p.Owner
      ∧ sidReplace "C".toList = .ok p.Primary
      ∧ parseBody "(A;;FA;;;WD)".toList = .ok (p.DaclInher, p.Dacl)
      ∧ parseBody "(AU;SA;FA;;;WD)".toList = .ok (p.SaclInger, p.Sacl) := by
  obtain ⟨p, hp⟩ :
      ∃ p, decode "O:A:BG:C:ED:(A;;FA;;;WD):zzS:(AU;SA;FA;;;WD):q".toList = .ok p :=
    ⟨_, rfl⟩
  have hall := (sections_cut_at_markers
    "O:A:BG:C:ED:(A;;FA;;;WD):zzS:(AU;SA;FA;;;WD):q".toList (by decide)).2.2.2.2.1 p hp
  exact ⟨p, hp,
    (hall "O:A:B".toList (by decide) "A:B".toList).1 rfl,
    (hall "G:C:E".toList (by decide) "C:E".toList).2.1 rfl,
    (hall "D:(A;;FA;;;WD):zz".toList (by decide) "(A;;FA;;;WD):zz".toList).2.2.1 rfl,
    (hall "S:(AU;SA;FA;;;WD):q".toList (by decide) "(AU;SA;FA;;;WD):q".toList).2.2.2 rfl⟩

/-- C14: for every input the unknown-section branch of the dispatcher
(`Unresolved group`) is never reached from decode: every slice that the
slicing step produces from the boundaries of `findIndex` has at least two
characters and starts with one of `O:`, `G:`, `D:`, `S:`, so the letter got by
splitting on `:` is one of O, G, D, S and the body index 1 is in range. -/
theorem unknown_section_unreachable (str : Str) :
    decode str ≠ .error .unresolvedGroup
    ∧ ∀ slices, sliceLoop str (findIndexResult str) = .ok slices →
        ∀ y ∈ slices, 2 ≤ y.length
          ∧ ∃ L t, L ∈ ['O', 'G', 'D', 'S'] ∧ y = L :: ':' :: t
              ∧ elemAt (Split y ':') 0 = .ok [L]
              ∧ ∃ body, elemAt (Split y ':') 1 = .ok body := by
  have hform : ∀ slices, sliceLoop str (findIndexResult str) = .ok slices →
      ∀ y ∈ slices, ∃ L t, L ∈ ['O', 'G', 'D', 'S'] ∧ y = L :: ':' :: t := by
    intro slices hs y hy
    obtain ⟨m, _, L, t, hL, _, hyt⟩ :=
      forall₂_right_mem _ _ _ (slices_start_with_markers str slices hs).2 y hy
    exact ⟨L, t, hL, hyt⟩
  refine ⟨?_, ?_⟩
  · rw [decode_eq]
    cases hs : sliceLoop str (findIndexResult str) with
    | error e =>
      have := sliceLoop_error str _ e hs
      subst this
      intro hcon
      cases hcon
    | ok slices =>
      exact parseSDDL_no_unresolved slices permissons.zero (hform slices hs)
  · intro slices hs y hy
    obtain ⟨L, t, hL, hyt⟩ := hform slices hs y hy
    have hLc : L ≠ ':' := by
      intro e
      subst e
      simp at hL
    obtain ⟨rest, hsp⟩ := Split_marker_slice L t hLc
    refine ⟨by simp [hyt], L, t, hL, hyt, ?_,
      t.takeWhile (fun c => decide (c ≠ ':')), ?_⟩
    · rw [hyt, hsp, elemAt_cons_zero]
    · rw [hyt, hsp, elemAt_cons_succ, elemAt_cons_zero]

/-- C20: when a marker that comes later in the fixed order `O:`, `G:`, `D:`,
`S:` has its first occurrence at a smaller index than a present marker that
comes earlier in that order, the slicing step fails with a slice bound out of
range and so does decode, before any section is dispatched and without a
permission set (`D:(A;;FA;;;WD)O:BA` and `G:SYO:BA` are such inputs);
conversely, when the recorded indices are increasing the slicing step
succeeds. -/
theorem out_of_order_markers_fail (str : Str) :
    (∀ m1 m2, List.Sublist [m1, m2] groups → Index str m1 ≠ -1 → Index str m2 ≠ -1 →
        Index str m2 < Index str m1 →
        sliceLoop str (findIndexResult str) = .error .sliceBounds
        ∧ decode str = .error .sliceBounds)
    ∧ ((markerIndices str).Pairwise (· < ·) →
        ∃ slices, sliceLoop str (findIndexResult str) = .ok slices)
    ∧ decode "D:(A;;FA;;;WD)O:BA".toList = .error .sliceBounds
    ∧ decode "G:SYO:BA".toList = .error .sliceBounds := by
  refine ⟨?_, fun h => ⟨_, sliceLoop_of_increasing str h⟩, rfl, rfl⟩
  intro m1 m2 hsub h1 h2 hlt
  have hs := sliceLoop_out_of_order str m1 m2 hsub h1 h2 hlt
  refine ⟨hs, ?_⟩
  rw [decode_eq, hs]
  rfl

theorem out_of_order_markers_fail_witness :
    sliceLoop "G:SYO:BA".toList (findIndexResult "G:SYO:BA".toList) = .error .sliceBounds
    ∧ decode "G:SYO:BA".toList = .error .sliceBounds :=
  (out_of_order_markers_fail "G:SYO:BA".toList).1 "O:".toList "G:".toList
    (by decide) (by decide) (by decide) (by decide)

end Gosddl
